import Mathlib

/-!
# Row-partitioned Game of Life (`game_mpi.c`)

A shallow embedding of the MPI program `game_mpi.c`: every worker (rank) holds two
buffers `grid` and `new_grid` of `rows_per_process = HEIGHT / size + 2` rows (local
row `0` and local row `rows_per_process - 1` are ghost rows), exchanges ghost rows
with its row neighbours, applies the update kernel and swaps the buffers.

Cells, neighbour counts and pattern entries are C `int`s and are modelled by `Int`;
loop counters, ranks and array indices are never negative and are modelled by `Nat`;
the offsets `dx`, `dy` and the neighbour coordinates `nx`, `ny` can be `-1` and are
modelled by `Int`. No `int` of the program leaves the 32-bit range on binary cells (a
neighbour count is at most `8`, an alive count at most `HEIGHT * WIDTH = 9000000`), so
no wrap-around is modelled.
-/

namespace GameOfLife

/-! ## Constants and buffers -/

/-- The macro `WIDTH` (line 8). -/
def WIDTH : Nat := 3000

/-- The macro `HEIGHT` (line 9). -/
def HEIGHT : Nat := 3000

/-- An `int**` buffer: `grid i j` is the cell `grid[i][j]` (row `i`, column `j`). -/
abbrev Grid := Nat → Nat → Int

/-- The buffer after the assignment `g[i][j] = v`. -/
def setCell (g : Grid) (i j : Nat) (v : Int) : Grid :=
  fun a b => if a = i ∧ b = j then v else g a b

/-- The buffer after `WIDTH` ints `row` were received into `g[i]`. -/
def setRow (g : Grid) (i : Nat) (row : Nat → Int) : Grid :=
  fun a b => if a = i ∧ b < WIDTH then row b else g a b

/-- A freshly allocated buffer after `memset(..., 0, ...)` of every row (lines 54-59). -/
def zero_grid : Grid := fun _ _ => 0

/-- The two buffers of one worker. -/
structure Buffers where
  /-- The current buffer `grid`. -/
  grid : Grid
  /-- The next buffer `new_grid`. -/
  new_grid : Grid

/-- The buffers of all workers, by rank. -/
abbrev World := Nat → Buffers

/-- The contents of `glider.h`, which is not part of the sources: the macros
`GLIDER_HEIGHT`, `GLIDER_WIDTH` and the table `glider`; a parameter of the model. -/
structure Pattern where
  /-- The macro `GLIDER_HEIGHT`. -/
  GLIDER_HEIGHT : Nat
  /-- The macro `GLIDER_WIDTH`. -/
  GLIDER_WIDTH : Nat
  /-- The table `glider[i][j]`. -/
  glider : Nat → Nat → Int

/-! ## `count_live_neighbors` (lines 24-38) -/

/-- The body of the inner loop of `count_live_neighbors` (lines 28-34), run for the
offsets `dx`, `dy` on the running `count`. -/
def neighbor_step (x y : Int) (grid : Grid) (dx dy : Int) (count : Int) : Int :=
  if dx ≠ 0 ∨ dy ≠ 0 then
    let nx := x + dx
    let ny := y + dy
    if nx ≥ 0 ∧ nx < (WIDTH : Int) ∧ ny ≥ 0 ∧ ny < (HEIGHT : Int) then
      count + grid nx.toNat ny.toNat
    else count
  else count

/-- The function `count_live_neighbors(x, y, grid)` (lines 24-38): both loops run over
`-1, 0, 1`. -/
def count_live_neighbors (x y : Int) (grid : Grid) : Int :=
  ([-1, 0, 1] : List Int).foldl
    (fun count dx =>
      ([-1, 0, 1] : List Int).foldl (fun count dy => neighbor_step x y grid dx dy count) count)
    0

/-! ## `main` -/

/-- The variable `rows_per_process` (line 51). -/
def rows_per_process (size : Nat) : Nat := HEIGHT / size + 2

/-- The value stored by the `if`/`else if`/`else` of lines 94-100 for a cell with value
`cell` and `live_neighbors` live neighbours. -/
def next_state (cell live_neighbors : Int) : Int :=
  if cell = 1 ∧ (live_neighbors < 2 ∨ live_neighbors > 3) then 0
  else if cell = 0 ∧ live_neighbors = 3 then 1
  else cell

/-- The body of the inner kernel loop (lines 92-100): `new_grid[i][j]` is assigned. -/
def kernel_cell (grid : Grid) (i j : Nat) (new_grid : Grid) : Grid :=
  let live_neighbors := count_live_neighbors i j grid
  let cell := grid i j
  setCell new_grid i j (next_state cell live_neighbors)

/-- The inner kernel loop `for (j = 0; j < WIDTH; j++)` (lines 91-101). -/
def kernel_row (grid : Grid) (i : Nat) (new_grid : Grid) : Grid :=
  (List.range WIDTH).foldl (fun ng j => kernel_cell grid i j ng) new_grid

/-- The update kernel `for (i = 1; i < rows_per_process - 1; i++)` (lines 90-102): the
contents of `new_grid` after the pass over the current buffer `grid`. -/
def kernel (rpp : Nat) (grid new_grid : Grid) : Grid :=
  (List.range' 1 (rpp - 2)).foldl (fun ng i => kernel_row grid i ng) new_grid

/-- Lines 64-68: the pattern is copied into `grid`, its first row going to local row
`start_row`, its first column to column `WIDTH / 2 - GLIDER_WIDTH / 2`. The column index
`WIDTH / 2 + j - GLIDER_WIDTH / 2` is never negative for a pattern at most as wide as the
grid (`GLIDER_WIDTH / 2 ≤ WIDTH / 2`). A `Grid` has no bounds, so this function is the
placement of the program only when every write lies inside the buffer of
`rows_per_process` rows and `WIDTH` columns (`placement_in_bounds`, which holds for every
worker count `1 ≤ size ≤ HEIGHT` when the pattern has at most 3 rows); a write outside
the buffer is undefined behaviour in the program and is not modelled. -/
def place_pattern (p : Pattern) (start_row : Nat) (grid : Grid) : Grid :=
  (List.range p.GLIDER_HEIGHT).foldl
    (fun g i =>
      (List.range p.GLIDER_WIDTH).foldl
        (fun g j =>
          setCell g (start_row + i) (WIDTH / 2 + j - p.GLIDER_WIDTH / 2) (p.glider i j))
        g)
    grid

/-- The rank that passes the test of line 62, for a nonzero divisor
`rows_per_process - 2`. -/
def placing_rank (rpp : Nat) : Nat := HEIGHT / 2 / (rpp - 2)

/-- The variable `start_row` (line 63). -/
def start_row (rpp : Nat) : Nat := (HEIGHT / 2) % (rpp - 2)

/-- Lines 62-69 on worker `rank`, for a nonzero divisor `rows_per_process - 2`. -/
def init_pattern (rpp rank : Nat) (p : Pattern) (grid : Grid) : Grid :=
  if rank = placing_rank rpp then place_pattern p (start_row rpp) grid else grid

/-- How a run of `main` can end before the main loop. `div_by_zero` is the integer
division by zero of line 51 (`size = 0`) or of line 62 (`rows_per_process - 2 = 0`);
`config_error` is the configuration error of the specification, which no line of `main`
raises. -/
inductive Fault where
  | div_by_zero
  | config_error
  deriving DecidableEq, Repr

/-- What `main` does to memory before the main loop: `alloc rows` is the allocation and
zero-filling of one buffer of `rows` rows (lines 52-59). -/
inductive Event where
  | alloc (rows : Nat)
  deriving DecidableEq, Repr

/-- Lines 51-69 on worker `rank` of `size` workers: the allocations made, in order, and
either the two buffers at the start of the main loop or the fault that ended the run. -/
def startup (size rank : Nat) (p : Pattern) : List Event × Except Fault Buffers :=
  if size = 0 then ([], Except.error Fault.div_by_zero)
  else
    let rpp := rows_per_process size
    let log := [Event.alloc rpp, Event.alloc rpp]
    if rpp - 2 = 0 then (log, Except.error Fault.div_by_zero)
    else (log, Except.ok { grid := init_pattern rpp rank p zero_grid, new_grid := zero_grid })

/-- The current buffer of worker `rank` after its upstream `MPI_Sendrecv` (lines 77-81),
which is skipped by rank `0`: local row `0` receives what worker `rank - 1` sends in its
downstream `MPI_Sendrecv`, its local row `rows_per_process - 2` as it is after that
worker's own upstream exchange. -/
def after_upstream (rpp : Nat) (grids : Nat → Grid) : Nat → Grid
  | 0 => grids 0
  | rank + 1 => setRow (grids (rank + 1)) 0 (after_upstream rpp grids rank (rpp - 2))

/-- The current buffer of worker `rank` after its downstream `MPI_Sendrecv`
(lines 83-87), which is skipped by rank `size - 1`: local row `rows_per_process - 1`
receives what worker `rank + 1` sends in its upstream `MPI_Sendrecv`, its local row `1`
at the start of the generation. -/
def after_downstream (size rpp : Nat) (grids : Nat → Grid) (rank : Nat) : Grid :=
  if rank + 1 < size then
    setRow (after_upstream rpp grids rank) (rpp - 1) (grids (rank + 1) 1)
  else after_upstream rpp grids rank

/-- The halo exchange of one generation on all workers (lines 77-87). -/
def exchange (size : Nat) (grids : Nat → Grid) : Nat → Grid :=
  after_downstream size (rows_per_process size) grids

/-- One iteration of the main loop on all workers (lines 72-111): halo exchange, update
kernel, pointer swap. The barrier of line 110 changes no buffer. -/
def generation (size : Nat) (w : World) : World := fun rank =>
  let grid := exchange size (fun r => (w r).grid) rank
  let new_grid := kernel (rows_per_process size) grid (w rank).new_grid
  { grid := new_grid, new_grid := grid }

/-- The variable `local_alive_count` after the loops of lines 114-121. -/
def local_alive_count (rpp : Nat) (grid : Grid) : Nat :=
  (List.range' 1 (rpp - 2)).foldl
    (fun count i =>
      (List.range WIDTH).foldl (fun count j => if grid i j = 1 then count + 1 else count) count)
    0

/-- The variable `global_alive_count` on rank `0` after `MPI_Reduce` with `MPI_SUM`
(lines 124-125). -/
def global_alive_count (size : Nat) (w : World) : Nat :=
  ((List.range size).map (fun rank => local_alive_count (rows_per_process size) (w rank).grid)).sum

/-- The buffers of all workers at the start of the main loop, when no worker faulted. -/
def initial_world (size : Nat) (p : Pattern) : World := fun rank =>
  { grid := init_pattern (rows_per_process size) rank p zero_grid, new_grid := zero_grid }

/-- The buffers of all workers after `N` iterations of the main loop. -/
def world_after (size : Nat) (p : Pattern) (N : Nat) : World :=
  Nat.iterate (generation size) N (initial_world size p)

/-- The whole run with `ITERATIONS = N`: the count printed by rank `0` (line 131), or
the fault that ended the run before the main loop. -/
def run (size : Nat) (p : Pattern) (N : Nat) : Except Fault Nat :=
  match (startup size 0 p).2 with
  | Except.error f => Except.error f
  | Except.ok _ => Except.ok (global_alive_count size (world_after size p N))

/-! ## Derived notions used in the statements -/

/-- The value `count_live_neighbors` adds for the neighbour `(nx, ny)`: the cell when the
test of line 31 passes, nothing otherwise. -/
def clipped (grid : Grid) (nx ny : Int) : Int :=
  if nx ≥ 0 ∧ nx < (WIDTH : Int) ∧ ny ≥ 0 ∧ ny < (HEIGHT : Int) then grid nx.toNat ny.toNat
  else 0

/-- The cell the kernel computes for `(i, j)` from the current buffer (lines 92-100). -/
def next_cell (grid : Grid) (i j : Nat) : Int :=
  next_state (grid i j) (count_live_neighbors i j grid)

/-- The number of rows a worker owns, `rows_per_process - 2`: the divisor of lines 62-63. -/
def owned_count (size : Nat) : Nat := rows_per_process size - 2

/-- Worker `r` owns the global row `g`: `g` lies in `[r * L, (r + 1) * L)` for
`L = rows_per_process - 2`. -/
def owns (size r g : Nat) : Prop :=
  r * owned_count size ≤ g ∧ g < (r + 1) * owned_count size

instance (size r g : Nat) : Decidable (owns size r g) := by
  unfold owns
  exact inferInstance

/-- A global `HEIGHT × WIDTH` grid `g0` loaded into the owned rows of `size` workers: the
global row `rank * L + k` (`k < L = rows_per_process - 2`) is local row `k + 1` of worker
`rank`; ghost rows and both next buffers are zero. -/
def distribute (size : Nat) (g0 : Grid) : World := fun rank =>
  { grid := fun i j =>
      if 1 ≤ i ∧ i ≤ owned_count size ∧ j < WIDTH then g0 (rank * owned_count size + (i - 1)) j
      else 0
    new_grid := zero_grid }

/-- The global grid assembled from the owned rows of the workers' current buffers: the
inverse of `distribute` on the rows that have an owner. -/
def assemble (size : Nat) (w : World) : Grid := fun g j =>
  (w (g / owned_count size)).grid (g % owned_count size + 1) j

/-! ### Sequential reference (from the specification)

The reference the specification compares the program with: the standard rule on the
`HEIGHT × WIDTH` grid, one buffer per generation, every cell outside the grid dead. -/

/-- The cell `(r, c)` of the global grid, dead outside `[0, HEIGHT) × [0, WIDTH)`. -/
def ref_cell (g : Grid) (r c : Int) : Int :=
  if 0 ≤ r ∧ r < (HEIGHT : Int) ∧ 0 ≤ c ∧ c < (WIDTH : Int) then g r.toNat c.toNat else 0

/-- The number of live cells in the Moore neighbourhood of `(r, c)`. -/
def ref_neighbors (g : Grid) (r c : Nat) : Int :=
  ref_cell g ((r : Int) - 1) ((c : Int) - 1) + ref_cell g ((r : Int) - 1) c
    + ref_cell g ((r : Int) - 1) ((c : Int) + 1)
    + ref_cell g r ((c : Int) - 1) + ref_cell g r ((c : Int) + 1)
    + ref_cell g ((r : Int) + 1) ((c : Int) - 1) + ref_cell g ((r : Int) + 1) c
    + ref_cell g ((r : Int) + 1) ((c : Int) + 1)

/-- The rule of the specification: a live cell with fewer than 2 or more than 3 live
neighbours becomes dead, a dead cell with exactly 3 becomes alive, every other cell keeps
its state. -/
def ref_rule (cell n : Int) : Int :=
  if cell = 1 ∧ (n < 2 ∨ n > 3) then 0
  else if cell = 0 ∧ n = 3 then 1
  else cell

/-- One generation of the sequential reference. -/
def ref_step (g : Grid) : Grid := fun r c =>
  if r < HEIGHT ∧ c < WIDTH then ref_rule (g r c) (ref_neighbors g r c) else g r c

/-- The sequential reference after `N` generations. -/
def ref_run (g : Grid) (N : Nat) : Grid := Nat.iterate ref_step N g

/-- Three live cells in the last row of the global grid, at columns `0`, `1`, `2`. -/
def bottom_blinker : Grid := fun r c => if r = 2999 ∧ c ≤ 2 then 1 else 0

/-- The usual content of `glider.h`: the 3 × 3 glider
`0 1 0 / 0 0 1 / 1 1 1`. -/
def standard_glider : Pattern where
  GLIDER_HEIGHT := 3
  GLIDER_WIDTH := 3
  glider := fun i j =>
    match i, j with
    | 0, 1 => 1
    | 1, 2 => 1
    | 2, 0 => 1
    | 2, 1 => 1
    | 2, 2 => 1
    | _, _ => 0

/-- The cell `grid[r][c]` when the column `c` lies in `[0, WIDTH)`, and `0` for a column
outside the grid. -/
def column_clipped (grid : Grid) (r : Nat) (c : Int) : Int :=
  if 0 ≤ c ∧ c < (WIDTH : Int) then grid r c.toNat else 0

/-- The neighbour count of the specification for the local row `i ≥ 1` and the column
`j`: the sum of the cells at the 8 positions `(i + dx, j + dy)`, every row `i - 1`, `i`,
`i + 1` counted, a column outside `[0, WIDTH)` contributing `0`. -/
def moore_sum (grid : Grid) (i j : Nat) : Int :=
  column_clipped grid (i - 1) ((j : Int) - 1) + column_clipped grid (i - 1) j
    + column_clipped grid (i - 1) ((j : Int) + 1)
    + column_clipped grid i ((j : Int) - 1) + column_clipped grid i ((j : Int) + 1)
    + column_clipped grid (i + 1) ((j : Int) - 1) + column_clipped grid (i + 1) j
    + column_clipped grid (i + 1) ((j : Int) + 1)

/-- A buffer whose only nonzero cell is `grid[3000][0] = 1`. -/
def last_row_cell : Grid := fun i j => if i = 3000 ∧ j = 0 then 1 else 0

/-- A buffer with three live cells in local row `1`, at the columns `0`, `1`, `2`. -/
def three_in_a_row : Grid := fun i j => if i = 1 ∧ j ≤ 2 then 1 else 0

/-- Current buffers for a check of the exchange: every cell of worker `r` holds
`10 * r + i`, `i` the local row. -/
def rank_row_stamp : Nat → Grid := fun r i _ => 10 * (r : Int) + (i : Int)

/-- The number of cells equal to `1` in the local rows `1 .. rows_per_process - 2` and the
columns `0 .. WIDTH - 1` of a buffer. -/
def live_in_owned_rows (rpp : Nat) (grid : Grid) : Nat :=
  ((Finset.Icc 1 (rpp - 2) ×ˢ Finset.range WIDTH).filter (fun p => grid p.1 p.2 = 1)).card

/-- The number of live cells of a global `HEIGHT × WIDTH` grid. -/
def live_cells (g : Grid) : Nat :=
  ((Finset.range HEIGHT ×ˢ Finset.range WIDTH).filter (fun p => g p.1 p.2 = 1)).card

/-- The global grid whose only live cells are the 2 × 2 block with top left corner
`(r, c)`. -/
def block (r c : Nat) : Grid := fun a b =>
  if (a = r ∨ a = r + 1) ∧ (b = c ∨ b = c + 1) then 1 else 0

/-- The ghost rows at the two edges of the global grid hold only zeros in both buffers:
local row `0` of worker `0` and local row `rows_per_process - 1` of worker `size - 1`. -/
def edge_ghost_zero (size : Nat) (w : World) : Prop :=
  ∀ j, j < WIDTH →
    (w 0).grid 0 j = 0 ∧ (w 0).new_grid 0 j = 0 ∧
    (w (size - 1)).grid (rows_per_process size - 1) j = 0 ∧
    (w (size - 1)).new_grid (rows_per_process size - 1) j = 0

/-- Two global grids have the same cells on `[0, HEIGHT) × [0, WIDTH)`. -/
def agree (G G' : Grid) : Prop := ∀ g j, g < HEIGHT → j < WIDTH → G g j = G' g j

/-- The pattern lies inside the owned rows of the placing worker and inside the columns of
the grid: the local rows `start_row .. start_row + GLIDER_HEIGHT - 1` are among
`1 .. rows_per_process - 2`, and the columns
`WIDTH / 2 - GLIDER_WIDTH / 2 .. WIDTH / 2 - GLIDER_WIDTH / 2 + GLIDER_WIDTH - 1` are
among `0 .. WIDTH - 1`. -/
def pattern_in_owned_rows (size : Nat) (p : Pattern) : Prop :=
  1 ≤ start_row (rows_per_process size) ∧
  start_row (rows_per_process size) + p.GLIDER_HEIGHT ≤ rows_per_process size - 1 ∧
  p.GLIDER_WIDTH / 2 ≤ WIDTH / 2 ∧
  WIDTH / 2 - p.GLIDER_WIDTH / 2 + p.GLIDER_WIDTH ≤ WIDTH

instance (size : Nat) (p : Pattern) : Decidable (pattern_in_owned_rows size p) := by
  unfold pattern_in_owned_rows
  exact inferInstance

/-- The global grid that holds the pattern with its first row in global row
`HEIGHT / 2 - 1` and its first column in column `WIDTH / 2 - GLIDER_WIDTH / 2`, every
other cell dead. -/
def pattern_grid (p : Pattern) : Grid := fun g j =>
  if (HEIGHT / 2 - 1 ≤ g ∧ g < HEIGHT / 2 - 1 + p.GLIDER_HEIGHT) ∧
      WIDTH / 2 - p.GLIDER_WIDTH / 2 ≤ j ∧
      j < WIDTH / 2 - p.GLIDER_WIDTH / 2 + p.GLIDER_WIDTH then
    p.glider (g - (HEIGHT / 2 - 1)) (j - (WIDTH / 2 - p.GLIDER_WIDTH / 2))
  else 0

/-- The global grid whose live cells are exactly the listed positions `(row, column)`. -/
def cells_at (cells : List (Nat × Nat)) : Grid := fun a b => if (a, b) ∈ cells then 1 else 0

/-! ### The rule on the unbounded plane

Patterns in coordinates relative to a corner `(r, c)`; used to follow a small pattern
through several generations wherever it lies in the grid. -/

/-- The pattern on the plane whose live cells are exactly the listed offsets. -/
def shape (S : List (Int × Int)) : Int → Int → Int := fun a b => if (a, b) ∈ S then 1 else 0

/-- The number of live cells in the Moore neighbourhood of `(a, b)` on the plane. -/
def plane_neighbors (P : Int → Int → Int) (a b : Int) : Int :=
  P (a - 1) (b - 1) + P (a - 1) b + P (a - 1) (b + 1)
    + P a (b - 1) + P a (b + 1)
    + P (a + 1) (b - 1) + P (a + 1) b + P (a + 1) (b + 1)

/-- One generation of the rule on the plane. -/
def plane_step (P : Int → Int → Int) : Int → Int → Int := fun a b =>
  ref_rule (P a b) (plane_neighbors P a b)

/-- The global grid that shows the plane pattern `P` with its origin at `(r, c)`. -/
def embed (r c : Nat) (P : Int → Int → Int) : Grid := fun g j =>
  P ((g : Int) - (r : Int)) ((j : Int) - (c : Int))

/-- The five offsets of the glider of the specification. -/
def glider_phase0 : List (Int × Int) := [(0, 1), (1, 2), (2, 0), (2, 1), (2, 2)]

/-- The glider after one generation. -/
def glider_phase1 : List (Int × Int) := [(1, 0), (1, 2), (2, 1), (2, 2), (3, 1)]

/-- The glider after two generations. -/
def glider_phase2 : List (Int × Int) := [(1, 2), (2, 0), (2, 2), (3, 1), (3, 2)]

/-- The glider after three generations. -/
def glider_phase3 : List (Int × Int) := [(1, 1), (2, 2), (2, 3), (3, 1), (3, 2)]

/-- The glider after four generations: the offsets of `glider_phase0` moved by `(1, 1)`. -/
def glider_phase4 : List (Int × Int) := [(1, 2), (2, 3), (3, 1), (3, 2), (3, 3)]

/-- The body of the inner loop of `count_live_neighbors` (lines 28-34) as to the cells it
reads: the index `(nx, ny)` is appended to `reads` exactly when `grid[nx][ny]` is read,
that is when the test of line 31 passes. -/
def neighbor_step_reads (x y : Int) (dx dy : Int) (reads : List (Int × Int)) :
    List (Int × Int) :=
  if dx ≠ 0 ∨ dy ≠ 0 then
    let nx := x + dx
    let ny := y + dy
    if nx ≥ 0 ∧ nx < (WIDTH : Int) ∧ ny ≥ 0 ∧ ny < (HEIGHT : Int) then reads ++ [(nx, ny)]
    else reads
  else reads

/-- The indices `(nx, ny)` of the cells `grid[nx][ny]` that `count_live_neighbors(x, y,
grid)` reads, in the order of the two loops (lines 26-36). -/
def neighbor_reads (x y : Int) : List (Int × Int) :=
  ([-1, 0, 1] : List Int).foldl
    (fun reads dx =>
      ([-1, 0, 1] : List Int).foldl (fun reads dy => neighbor_step_reads x y dx dy reads) reads)
    []

/-! ### The kernel pass as a change of both buffers

The buffers `grid` and `new_grid` are two separate allocations (lines 52-56), so the
assignment `new_grid[i][j] = ...` leaves every cell of `grid` as it is. -/

/-- The body of the inner kernel loop (lines 92-100) on the state of both buffers: the
neighbours and the cell are read from the current buffer of the state, the result is
stored in its next buffer. -/
def kernel_cell_step (i j : Nat) (b : Buffers) : Buffers :=
  let live_neighbors := count_live_neighbors i j b.grid
  let cell := b.grid i j
  { grid := b.grid, new_grid := setCell b.new_grid i j (next_state cell live_neighbors) }

/-- The two kernel loops (lines 90-102) on the state of both buffers. -/
def kernel_pass (rpp : Nat) (b : Buffers) : Buffers :=
  (List.range' 1 (rpp - 2)).foldl
    (fun b i => (List.range WIDTH).foldl (fun b j => kernel_cell_step i j b) b)
    b

/-- Every cell of the buffer is `0` or `1`. -/
def binary_grid (g : Grid) : Prop := ∀ i j, g i j = 0 ∨ g i j = 1

/-- Every cell of both buffers of every worker is `0` or `1`. -/
def binary_world (w : World) : Prop :=
  ∀ rank, binary_grid (w rank).grid ∧ binary_grid (w rank).new_grid

/-- The number of cells different from `0` in the local rows `1 .. rows_per_process - 2`
and the columns `0 .. WIDTH - 1` of a buffer. -/
def nonzero_in_owned_rows (rpp : Nat) (grid : Grid) : Nat :=
  ((Finset.Icc 1 (rpp - 2) ×ˢ Finset.range WIDTH).filter (fun p => grid p.1 p.2 ≠ 0)).card

/-- Every write `grid[start_row + i][WIDTH / 2 + j - GLIDER_WIDTH / 2]` of lines 64-68 on
the placing worker lies inside its buffer: the row index is below `rows_per_process`, the
column index is not negative and below `WIDTH`. -/
def placement_in_bounds (size : Nat) (p : Pattern) : Prop :=
  ∀ i, i < p.GLIDER_HEIGHT → ∀ j, j < p.GLIDER_WIDTH →
    start_row (rows_per_process size) + i < rows_per_process size ∧
    p.GLIDER_WIDTH / 2 ≤ WIDTH / 2 + j ∧
    WIDTH / 2 + j - p.GLIDER_WIDTH / 2 < WIDTH

instance (size : Nat) (p : Pattern) : Decidable (placement_in_bounds size p) := by
  unfold placement_in_bounds
  exact inferInstance

/-- Every cell of the model outside the buffer of `rpp` rows and `WIDTH` columns is `0`:
no write has gone outside the buffer. -/
def zero_outside (rpp : Nat) (g : Grid) : Prop :=
  ∀ i j, ¬ (i < rpp ∧ j < WIDTH) → g i j = 0

/-! # Theorems -/

/-! ## Closed forms of the loops -/

theorem neighbor_step_eq (x y : Int) (grid : Grid) (dx dy count : Int) :
    neighbor_step x y grid dx dy count
      = count + (if dx ≠ 0 ∨ dy ≠ 0 then clipped grid (x + dx) (y + dy) else 0) := by
  simp only [neighbor_step, clipped]
  by_cases h1 : dx ≠ 0 ∨ dy ≠ 0
  · by_cases h2 : x + dx ≥ 0 ∧ x + dx < (WIDTH : Int) ∧ y + dy ≥ 0 ∧ y + dy < (HEIGHT : Int)
    · rw [if_pos h1, if_pos h1, if_pos h2, if_pos h2]
    · rw [if_pos h1, if_pos h1, if_neg h2, if_neg h2, add_zero]
  · rw [if_neg h1, if_neg h1, add_zero]

/-- The two loops of `count_live_neighbors` unrolled. -/
theorem count_live_neighbors_eq (x y : Int) (grid : Grid) :
    count_live_neighbors x y grid
      = clipped grid (x - 1) (y - 1) + clipped grid (x - 1) y + clipped grid (x - 1) (y + 1)
        + clipped grid x (y - 1) + clipped grid x (y + 1)
        + clipped grid (x + 1) (y - 1) + clipped grid (x + 1) y
        + clipped grid (x + 1) (y + 1) := by
  simp only [count_live_neighbors, List.foldl, neighbor_step_eq]
  norm_num
  simp only [sub_eq_add_neg]

theorem setCell_apply (g : Grid) (i j : Nat) (v : Int) (a b : Nat) :
    setCell g i j v a b = if a = i ∧ b = j then v else g a b := rfl

theorem setRow_apply (g : Grid) (i : Nat) (row : Nat → Int) (a b : Nat) :
    setRow g i row a b = if a = i ∧ b < WIDTH then row b else g a b := rfl

/-- A loop `for (j = 0; j < n; j++) g[i][j] = f j`. -/
theorem foldl_setCell_range (i : Nat) (f : Nat → Int) (n : Nat) (g : Grid) (a b : Nat) :
    (List.range n).foldl (fun ng j => setCell ng i j (f j)) g a b
      = if a = i ∧ b < n then f b else g a b := by
  induction n with
  | zero => simp
  | succ n ih =>
    rw [List.range_succ, List.foldl_append, List.foldl_cons, List.foldl_nil, setCell_apply, ih]
    by_cases ha : a = i
    · by_cases hb : b = n
      · simp [ha, hb]
      · by_cases hlt : b < n
        · have : b < n + 1 := by omega
          simp [ha, hb, hlt, this]
        · have : ¬ b < n + 1 := by omega
          simp [ha, hb, hlt, this]
    · simp [ha]

theorem kernel_row_apply (grid : Grid) (i : Nat) (new_grid : Grid) (a b : Nat) :
    kernel_row grid i new_grid a b
      = if a = i ∧ b < WIDTH then next_cell grid i b else new_grid a b := by
  unfold kernel_row kernel_cell
  exact foldl_setCell_range i (fun j => next_cell grid i j) WIDTH new_grid a b

theorem foldl_kernel_row (grid : Grid) (n : Nat) (new_grid : Grid) (a b : Nat) :
    (List.range' 1 n).foldl (fun ng i => kernel_row grid i ng) new_grid a b
      = if (1 ≤ a ∧ a < 1 + n) ∧ b < WIDTH then next_cell grid a b else new_grid a b := by
  induction n with
  | zero =>
    have : ¬ ((1 ≤ a ∧ a < 1 + 0) ∧ b < WIDTH) := by omega
    rw [if_neg this]
    rfl
  | succ n ih =>
    rw [List.range'_1_concat, List.foldl_append, List.foldl_cons, List.foldl_nil,
      kernel_row_apply, ih]
    by_cases ha : a = 1 + n
    · by_cases hb : b < WIDTH
      · have : 1 ≤ a ∧ a < 1 + (n + 1) := by omega
        simp [ha, hb]
      · simp [hb]
    · by_cases h : 1 ≤ a ∧ a < 1 + n
      · have : 1 ≤ a ∧ a < 1 + (n + 1) := by omega
        simp [ha, h, this]
      · have : ¬ (1 ≤ a ∧ a < 1 + (n + 1)) := by omega
        simp [ha, h, this]

/-- The update kernel in closed form: the cells of the owned rows are recomputed from the
current buffer, every other cell of `new_grid` keeps its value. -/
theorem kernel_apply (rpp : Nat) (grid new_grid : Grid) (a b : Nat) :
    kernel rpp grid new_grid a b
      = if (1 ≤ a ∧ a < 1 + (rpp - 2)) ∧ b < WIDTH then next_cell grid a b
        else new_grid a b := by
  unfold kernel
  exact foldl_kernel_row grid (rpp - 2) new_grid a b

/-! ## Partition (C1) -/

theorem owned_count_eq (size : Nat) : owned_count size = HEIGHT / size := by
  simp [owned_count, rows_per_process]

theorem owned_count_pos (size : Nat) (h1 : 1 ≤ size) (h2 : size ≤ HEIGHT) :
    0 < owned_count size := by
  rw [owned_count_eq]
  exact Nat.div_pos h2 h1

theorem owns_iff_div (size r g : Nat) (hL : 0 < owned_count size) :
    owns size r g ↔ g / owned_count size = r := by
  unfold owns
  constructor
  · rintro ⟨h1, h2⟩
    exact Nat.div_eq_of_lt_le h1 h2
  · rintro rfl
    constructor
    · exact Nat.div_mul_le_self g _
    · rw [Nat.mul_comm]
      exact Nat.lt_mul_div_succ g hL

/-- C1, counterexample: with `size = 7` workers (`7` does not divide `HEIGHT = 3000`) every
worker owns `428` rows, and the global row `2999` of the grid is owned by no worker. -/
theorem partition_coverage_counterexample :
    (1 ≤ 7 ∧ 7 ≤ HEIGHT) ∧ owned_count 7 = 428 ∧ 2999 < HEIGHT ∧
      ¬ ∃ r, r < 7 ∧ owns 7 r 2999 := by
  decide

/-- C1, amended: for `1 ≤ size ≤ HEIGHT` the owned row ranges `[r * L, (r + 1) * L)`,
`L = rows_per_process - 2 = HEIGHT / size`, of the workers `r < size` are pairwise
disjoint and their union is exactly `[0, size * (HEIGHT / size))`; this is `[0, HEIGHT)`
exactly when `size` divides `HEIGHT`, and otherwise the last `HEIGHT % size` rows belong
to no worker. The owner of a covered row `g` is the rank `g / L` of the test of line 62. -/
theorem partition_coverage_amended (size : Nat) (h1 : 1 ≤ size) (h2 : size ≤ HEIGHT) :
    (∀ r r' g, owns size r g → owns size r' g → r = r') ∧
    (∀ g, (∃ r, r < size ∧ owns size r g) ↔ g < size * (HEIGHT / size)) ∧
    (∀ g, g < size * (HEIGHT / size) → owns size (g / owned_count size) g) ∧
    (size * (HEIGHT / size) = HEIGHT ↔ size ∣ HEIGHT) ∧
    size * (HEIGHT / size) + HEIGHT % size = HEIGHT := by
  have hL := owned_count_pos size h1 h2
  refine ⟨?_, ?_, ?_, ?_, Nat.div_add_mod HEIGHT size⟩
  · intro r r' g hr hr'
    rw [owns_iff_div size r g hL] at hr
    rw [owns_iff_div size r' g hL] at hr'
    omega
  · intro g
    rw [← owned_count_eq]
    constructor
    · rintro ⟨r, hr, -, hg⟩
      calc g < (r + 1) * owned_count size := hg
        _ ≤ size * owned_count size := Nat.mul_le_mul_right _ hr
    · intro hg
      refine ⟨g / owned_count size, ?_, (owns_iff_div size _ g hL).2 rfl⟩
      exact (Nat.div_lt_iff_lt_mul hL).2 hg
  · intro g _
    exact (owns_iff_div size _ g hL).2 rfl
  · constructor
    · intro h
      exact ⟨HEIGHT / size, h.symm⟩
    · intro h
      exact Nat.mul_div_cancel' h

/-- C1, witness of the amended statement at `size = 7`. -/
theorem partition_coverage_amended_witness :
    (1 ≤ 7 ∧ 7 ≤ HEIGHT) ∧
    ((∀ r r' g, owns 7 r g → owns 7 r' g → r = r') ∧
    (∀ g, (∃ r, r < 7 ∧ owns 7 r g) ↔ g < 7 * (HEIGHT / 7)) ∧
    (∀ g, g < 7 * (HEIGHT / 7) → owns 7 (g / owned_count 7) g) ∧
    (7 * (HEIGHT / 7) = HEIGHT ↔ 7 ∣ HEIGHT) ∧
    7 * (HEIGHT / 7) + HEIGHT % 7 = HEIGHT) :=
  ⟨by decide, partition_coverage_amended 7 (by decide) (by decide)⟩

/-! ## One generation, cell by cell -/

/-- The current buffer of a worker after one generation: its owned rows hold the cells
the kernel computed from the exchanged buffer, every other row is what the old next
buffer held (the swap of lines 105-107). -/
theorem generation_grid_apply (size : Nat) (w : World) (rank a b : Nat) :
    (generation size w rank).grid a b
      = if (1 ≤ a ∧ a < 1 + (rows_per_process size - 2)) ∧ b < WIDTH then
          next_cell (exchange size (fun r => (w r).grid) rank) a b
        else (w rank).new_grid a b := by
  unfold generation
  exact kernel_apply _ _ _ a b

/-! ## Single worker against the sequential reference (C2) -/

/-- C2, the program at the failing input: one worker, the grid `bottom_blinker` (live
cells `(2999, 0)`, `(2999, 1)`, `(2999, 2)`, binary, ghost rows zero). After one
generation the owned cell of global position `(2999, 1)` (local row `3000`) is dead in
the program, because `count_live_neighbors` skips the rows `nx ≥ WIDTH = 3000` and returns
`0`; in the sequential reference the cell has two live neighbours and stays alive. -/
theorem single_worker_divergence :
    (∀ r c, bottom_blinker r c = 0 ∨ bottom_blinker r c = 1) ∧
    count_live_neighbors 3000 1 (exchange 1 (fun r => (distribute 1 bottom_blinker r).grid) 0) = 0 ∧
    ref_neighbors bottom_blinker 2999 1 = 2 ∧
    (Nat.iterate (generation 1) 1 (distribute 1 bottom_blinker) 0).grid (2999 + 1) 1 = 0 ∧
    ref_run bottom_blinker 1 2999 1 = 1 := by
  refine ⟨?_, by decide, by decide, ?_, by decide⟩
  · intro r c
    unfold bottom_blinker
    by_cases h : r = 2999 ∧ c ≤ 2
    · exact Or.inr (if_pos h)
    · exact Or.inl (if_neg h)
  · rw [Function.iterate_one, generation_grid_apply]
    decide

/-! ## Closed forms of the counting loops and of the pattern placement -/

theorem foldl_count_row (grid : Grid) (i n count : Nat) :
    (List.range n).foldl (fun count j => if grid i j = 1 then count + 1 else count) count
      = count + ∑ j in Finset.range n, (if grid i j = 1 then 1 else 0) := by
  induction n with
  | zero => simp
  | succ n ih =>
    rw [List.range_succ, List.foldl_append, List.foldl_cons, List.foldl_nil, ih,
      Finset.sum_range_succ]
    by_cases h : grid i n = 1
    · simp [h, Nat.add_assoc]
    · simp [h]

theorem foldl_count_rows (grid : Grid) (n count : Nat) :
    (List.range' 1 n).foldl
        (fun count i =>
          (List.range WIDTH).foldl (fun count j => if grid i j = 1 then count + 1 else count)
            count)
        count
      = count + ∑ i in Finset.Ico 1 (1 + n), ∑ j in Finset.range WIDTH,
          (if grid i j = 1 then 1 else 0) := by
  induction n with
  | zero => simp
  | succ n ih =>
    rw [List.range'_1_concat, List.foldl_append, List.foldl_cons, List.foldl_nil, ih,
      foldl_count_row, ← Nat.add_assoc 1 n 1, Finset.sum_Ico_succ_top (by omega),
      Nat.add_assoc]

/-- The loops of lines 114-121 count the cells equal to `1` in the owned rows. -/
theorem local_alive_count_eq_sum (rpp : Nat) (grid : Grid) :
    local_alive_count rpp grid
      = ∑ i in Finset.Ico 1 (1 + (rpp - 2)), ∑ j in Finset.range WIDTH,
          (if grid i j = 1 then 1 else 0) := by
  unfold local_alive_count
  rw [foldl_count_rows, Nat.zero_add]

theorem local_alive_count_eq_card (rpp : Nat) (grid : Grid) :
    local_alive_count rpp grid
      = ((Finset.Ico 1 (1 + (rpp - 2)) ×ˢ Finset.range WIDTH).filter
          (fun p => grid p.1 p.2 = 1)).card := by
  rw [local_alive_count_eq_sum, Finset.card_filter, Finset.sum_product]

/-- When the owned cells equal to `1` are exactly the cells of the finite set `S`, the
local count is the size of `S`. -/
theorem local_alive_count_of_support (rpp : Nat) (grid : Grid) (S : Finset (Nat × Nat))
    (hS : ∀ p ∈ S, (1 ≤ p.1 ∧ p.1 < 1 + (rpp - 2)) ∧ p.2 < WIDTH)
    (h : ∀ i j, 1 ≤ i → i < 1 + (rpp - 2) → j < WIDTH → (grid i j = 1 ↔ (i, j) ∈ S)) :
    local_alive_count rpp grid = S.card := by
  rw [local_alive_count_eq_card]
  congr 1
  ext ⟨i, j⟩
  simp only [Finset.mem_filter, Finset.mem_product, Finset.mem_Ico, Finset.mem_range]
  constructor
  · rintro ⟨⟨⟨h1, h2⟩, h3⟩, h4⟩
    exact (h i j h1 h2 h3).1 h4
  · intro hp
    have := hS _ hp
    exact ⟨this, (h i j this.1.1 this.1.2 this.2).2 hp⟩

theorem sum_map_range (f : Nat → Nat) (n : Nat) :
    ((List.range n).map f).sum = ∑ r in Finset.range n, f r := by
  induction n with
  | zero => simp
  | succ n ih =>
    rw [List.range_succ, List.map_append, List.sum_append, Finset.sum_range_succ, ih]
    simp

/-- The reduction of lines 124-125 adds the local counts of the ranks below `size`. -/
theorem global_alive_count_eq_sum (size : Nat) (w : World) :
    global_alive_count size w
      = ∑ rank in Finset.range size,
          local_alive_count (rows_per_process size) (w rank).grid := by
  unfold global_alive_count
  exact sum_map_range _ size

theorem foldl_setCell_shift (i c0 : Nat) (f : Nat → Int) (n : Nat) (g : Grid) (a b : Nat) :
    (List.range n).foldl (fun ng j => setCell ng i (c0 + j) (f j)) g a b
      = if a = i ∧ c0 ≤ b ∧ b < c0 + n then f (b - c0) else g a b := by
  induction n with
  | zero =>
    have : ¬ (a = i ∧ c0 ≤ b ∧ b < c0 + 0) := by omega
    rw [if_neg this]
    rfl
  | succ n ih =>
    rw [List.range_succ, List.foldl_append, List.foldl_cons, List.foldl_nil, setCell_apply, ih]
    by_cases h : a = i ∧ b = c0 + n
    · have h2 : a = i ∧ c0 ≤ b ∧ b < c0 + (n + 1) := by omega
      have h3 : b - c0 = n := by omega
      rw [if_pos h, if_pos h2, h3]
    · rw [if_neg h]
      by_cases h1 : a = i ∧ c0 ≤ b ∧ b < c0 + n
      · have h2 : a = i ∧ c0 ≤ b ∧ b < c0 + (n + 1) := by omega
        rw [if_pos h1, if_pos h2]
      · have h2 : ¬ (a = i ∧ c0 ≤ b ∧ b < c0 + (n + 1)) := by omega
        rw [if_neg h1, if_neg h2]

theorem foldl_place_rows (p : Pattern) (s c0 : Nat) (n : Nat) (g : Grid) (a b : Nat) :
    (List.range n).foldl
        (fun g i =>
          (List.range p.GLIDER_WIDTH).foldl
            (fun g j => setCell g (s + i) (c0 + j) (p.glider i j)) g)
        g a b
      = if (s ≤ a ∧ a < s + n) ∧ c0 ≤ b ∧ b < c0 + p.GLIDER_WIDTH then
          p.glider (a - s) (b - c0)
        else g a b := by
  induction n with
  | zero =>
    have : ¬ ((s ≤ a ∧ a < s + 0) ∧ c0 ≤ b ∧ b < c0 + p.GLIDER_WIDTH) := by omega
    rw [if_neg this]
    rfl
  | succ n ih =>
    rw [List.range_succ, List.foldl_append, List.foldl_cons, List.foldl_nil,
      foldl_setCell_shift, ih]
    by_cases h : a = s + n ∧ c0 ≤ b ∧ b < c0 + p.GLIDER_WIDTH
    · have h2 : (s ≤ a ∧ a < s + (n + 1)) ∧ c0 ≤ b ∧ b < c0 + p.GLIDER_WIDTH := by omega
      have h3 : a - s = n := by omega
      rw [if_pos h, if_pos h2, h3]
    · rw [if_neg h]
      by_cases h1 : (s ≤ a ∧ a < s + n) ∧ c0 ≤ b ∧ b < c0 + p.GLIDER_WIDTH
      · have h2 : (s ≤ a ∧ a < s + (n + 1)) ∧ c0 ≤ b ∧ b < c0 + p.GLIDER_WIDTH := by omega
        rw [if_pos h1, if_pos h2]
      · have h2 : ¬ ((s ≤ a ∧ a < s + (n + 1)) ∧ c0 ≤ b ∧ b < c0 + p.GLIDER_WIDTH) := by
          omega
        rw [if_neg h1, if_neg h2]

/-- The placement loops of lines 64-68 in closed form, for a pattern at most as wide as
the grid (`GLIDER_WIDTH / 2 ≤ WIDTH / 2`, so that no column index is negative): the
pattern occupies the local rows `start_row .. start_row + GLIDER_HEIGHT - 1` and the
columns from `WIDTH / 2 - GLIDER_WIDTH / 2` on. -/
theorem place_pattern_apply (p : Pattern) (hw : p.GLIDER_WIDTH / 2 ≤ WIDTH / 2) (s : Nat)
    (g : Grid) (a b : Nat) :
    place_pattern p s g a b
      = if (s ≤ a ∧ a < s + p.GLIDER_HEIGHT) ∧
            WIDTH / 2 - p.GLIDER_WIDTH / 2 ≤ b ∧
            b < WIDTH / 2 - p.GLIDER_WIDTH / 2 + p.GLIDER_WIDTH then
          p.glider (a - s) (b - (WIDTH / 2 - p.GLIDER_WIDTH / 2))
        else g a b := by
  unfold place_pattern
  have hcol : ∀ j, WIDTH / 2 + j - p.GLIDER_WIDTH / 2 = (WIDTH / 2 - p.GLIDER_WIDTH / 2) + j := by
    intro j
    omega
  simp only [hcol]
  exact foldl_place_rows p s _ p.GLIDER_HEIGHT g a b

/-! ## Counting a buffer whose live cells lie in a small window -/

/-- The local count of a buffer whose cells equal to `1` all lie in the window
`[r0, r1) × [c0, c1)`: the owned cells of the window are compared with `S` one by one. -/
theorem local_alive_count_of_window (rpp : Nat) (grid : Grid) (S : Finset (Nat × Nat))
    (r0 r1 c0 c1 : Nat)
    (hS : ∀ p ∈ S, ((1 ≤ p.1 ∧ p.1 < 1 + (rpp - 2)) ∧ p.2 < WIDTH) ∧
      (r0 ≤ p.1 ∧ p.1 < r1) ∧ c0 ≤ p.2 ∧ p.2 < c1)
    (hout : ∀ i j, ¬ ((r0 ≤ i ∧ i < r1) ∧ c0 ≤ j ∧ j < c1) → grid i j ≠ 1)
    (hin : ∀ i ∈ Finset.Ico r0 r1, ∀ j ∈ Finset.Ico c0 c1,
      (1 ≤ i ∧ i < 1 + (rpp - 2)) → (grid i j = 1 ↔ (i, j) ∈ S)) :
    local_alive_count rpp grid = S.card := by
  apply local_alive_count_of_support rpp grid S (fun p hp => (hS p hp).1)
  intro i j h1 h2 _
  by_cases hwin : (r0 ≤ i ∧ i < r1) ∧ c0 ≤ j ∧ j < c1
  · exact hin i (Finset.mem_Ico.2 hwin.1) j (Finset.mem_Ico.2 hwin.2) ⟨h1, h2⟩
  · constructor
    · intro h
      exact absurd h (hout i j hwin)
    · intro h
      exact absurd (hS _ h).2 hwin

theorem clipped_eq_zero (g : Grid) (nx ny : Int)
    (h : ∀ a b : Nat, (a : Int) = nx → (b : Int) = ny → g a b = 0) : clipped g nx ny = 0 := by
  unfold clipped
  by_cases hb : nx ≥ 0 ∧ nx < (WIDTH : Int) ∧ ny ≥ 0 ∧ ny < (HEIGHT : Int)
  · rw [if_pos hb]
    exact h _ _ (Int.toNat_of_nonneg hb.1) (Int.toNat_of_nonneg hb.2.2.1)
  · rw [if_neg hb]

/-- A cell whose Moore neighbourhood lies outside the window that holds every nonzero
cell of the current buffer is dead in the next generation. -/
theorem next_cell_eq_zero (g : Grid) (r0 r1 c0 c1 : Nat)
    (hsup : ∀ a b, ¬ ((r0 ≤ a ∧ a < r1) ∧ c0 ≤ b ∧ b < c1) → g a b = 0) (i j : Nat)
    (hfar : ¬ ((r0 ≤ i + 1 ∧ i < r1 + 1) ∧ c0 ≤ j + 1 ∧ j < c1 + 1)) :
    next_cell g i j = 0 := by
  have hz : ∀ dx dy : Int, -1 ≤ dx → dx ≤ 1 → -1 ≤ dy → dy ≤ 1 →
      clipped g ((i : Int) + dx) ((j : Int) + dy) = 0 := by
    intro dx dy h1 h2 h3 h4
    apply clipped_eq_zero
    intro a b ha hb
    apply hsup
    omega
  have hc : count_live_neighbors i j g = 0 := by
    rw [count_live_neighbors_eq]
    simp only [sub_eq_add_neg]
    have e1 := hz (-1) (-1) (by norm_num) (by norm_num) (by norm_num) (by norm_num)
    have e2 := hz (-1) 0 (by norm_num) (by norm_num) (by norm_num) (by norm_num)
    have e3 := hz (-1) 1 (by norm_num) (by norm_num) (by norm_num) (by norm_num)
    have e4 := hz 0 (-1) (by norm_num) (by norm_num) (by norm_num) (by norm_num)
    have e5 := hz 0 1 (by norm_num) (by norm_num) (by norm_num) (by norm_num)
    have e6 := hz 1 (-1) (by norm_num) (by norm_num) (by norm_num) (by norm_num)
    have e7 := hz 1 0 (by norm_num) (by norm_num) (by norm_num) (by norm_num)
    have e8 := hz 1 1 (by norm_num) (by norm_num) (by norm_num) (by norm_num)
    simp only [add_zero] at e2 e4 e5 e7
    rw [e1, e2, e3, e4, e5, e6, e7, e8]
    rfl
  have hg : g i j = 0 := by
    apply hsup
    omega
  unfold next_cell
  rw [hc, hg]
  rfl

/-- The local count of a worker after one generation, when every nonzero cell of its
exchanged current buffer lies in the window `[r0, r1) × [c0, c1)`: only the cells of the
window grown by one cell on each side have to be computed. -/
theorem local_alive_count_generation (size : Nat) (w : World) (rank : Nat)
    (S : Finset (Nat × Nat)) (r0 r1 c0 c1 : Nat)
    (hS : ∀ p ∈ S, ((1 ≤ p.1 ∧ p.1 < 1 + (rows_per_process size - 2)) ∧ p.2 < WIDTH) ∧
      (r0 - 1 ≤ p.1 ∧ p.1 < r1 + 1) ∧ c0 - 1 ≤ p.2 ∧ p.2 < c1 + 1)
    (hsup : ∀ a b, ¬ ((r0 ≤ a ∧ a < r1) ∧ c0 ≤ b ∧ b < c1) →
      exchange size (fun r => (w r).grid) rank a b = 0)
    (hin : ∀ i ∈ Finset.Ico (r0 - 1) (r1 + 1), ∀ j ∈ Finset.Ico (c0 - 1) (c1 + 1),
      (1 ≤ i ∧ i < 1 + (rows_per_process size - 2)) → j < WIDTH →
      (next_cell (exchange size (fun r => (w r).grid) rank) i j = 1 ↔ (i, j) ∈ S)) :
    local_alive_count (rows_per_process size) (generation size w rank).grid = S.card := by
  apply local_alive_count_of_support _ _ S (fun p hp => (hS p hp).1)
  intro i j h1 h2 h3
  rw [generation_grid_apply, if_pos ⟨⟨h1, h2⟩, h3⟩]
  by_cases hwin : (r0 - 1 ≤ i ∧ i < r1 + 1) ∧ c0 - 1 ≤ j ∧ j < c1 + 1
  · exact hin i (Finset.mem_Ico.2 hwin.1) j (Finset.mem_Ico.2 hwin.2) ⟨h1, h2⟩ h3
  · have hz := next_cell_eq_zero _ r0 r1 c0 c1 hsup i j (by omega)
    rw [hz]
    constructor
    · intro h
      exact absurd h (by decide)
    · intro h
      exact absurd (hS _ h).2 hwin

/-! ## The whole run with one and with two workers (C3) -/

theorem run_ok (size : Nat) (p : Pattern) (N : Nat) (h1 : 1 ≤ size) (h2 : size ≤ HEIGHT) :
    run size p N = Except.ok (global_alive_count size (world_after size p N)) := by
  have hL := owned_count_pos size h1 h2
  unfold owned_count at hL
  have hs : size ≠ 0 := by omega
  have hr : ¬ (rows_per_process size - 2 = 0) := by omega
  simp only [run, startup, if_neg hs, if_neg hr]

/-- The initial current buffer of a worker for the standard glider. -/
theorem initial_glider_apply (size rank a b : Nat) :
    (initial_world size standard_glider rank).grid a b
      = if rank = placing_rank (rows_per_process size) ∧
            (start_row (rows_per_process size) ≤ a ∧
              a < start_row (rows_per_process size) + 3) ∧ 1499 ≤ b ∧ b < 1502 then
          standard_glider.glider (a - start_row (rows_per_process size)) (b - 1499)
        else 0 := by
  simp only [initial_world, init_pattern]
  by_cases h : rank = placing_rank (rows_per_process size)
  · rw [if_pos h, place_pattern_apply standard_glider (by decide)]
    simp only [h, true_and]
    rfl
  · rw [if_neg h]
    simp only [h, false_and, if_false]
    rfl

theorem initial_glider_support_one (a b : Nat)
    (h : ¬ ((1500 ≤ a ∧ a < 1503) ∧ 1499 ≤ b ∧ b < 1502)) :
    (initial_world 1 standard_glider 0).grid a b = 0 := by
  rw [initial_glider_apply]
  have hs : start_row (rows_per_process 1) = 1500 := by decide
  rw [hs]
  apply if_neg
  intro hc
  exact h hc.2

theorem initial_glider_two_rank0 (a b : Nat) :
    (initial_world 2 standard_glider 0).grid a b = 0 := by
  rw [initial_glider_apply]
  have hp : placing_rank (rows_per_process 2) = 1 := by decide
  rw [hp]
  apply if_neg
  intro hc
  exact absurd hc.1 (by decide)

theorem initial_glider_two_rank1 (a b : Nat) (h : ¬ (a < 3 ∧ 1499 ≤ b ∧ b < 1502)) :
    (initial_world 2 standard_glider 1).grid a b = 0 := by
  rw [initial_glider_apply]
  have hs : start_row (rows_per_process 2) = 0 := by decide
  rw [hs]
  apply if_neg
  intro hc
  apply h
  obtain ⟨-, ⟨-, h2⟩, h3⟩ := hc
  rw [Nat.zero_add] at h2
  exact ⟨h2, h3⟩

theorem local_count_one_zero :
    local_alive_count (rows_per_process 1) (world_after 1 standard_glider 0 0).grid = 5 := by
  simp only [world_after, Function.iterate_zero, id]
  rw [local_alive_count_of_window _ _
    {(1500, 1500), (1501, 1501), (1502, 1499), (1502, 1500), (1502, 1501)}
    1500 1503 1499 1502]
  · rfl
  · decide
  · intro i j h
    rw [initial_glider_support_one i j h]
    decide
  · decide

theorem local_count_one_one :
    local_alive_count (rows_per_process 1) (world_after 1 standard_glider 1 0).grid = 5 := by
  simp only [world_after, Function.iterate_one]
  rw [local_alive_count_generation 1 _ 0
    {(1501, 1499), (1501, 1501), (1502, 1500), (1502, 1501), (1503, 1500)}
    1500 1503 1499 1502]
  · rfl
  · decide
  · intro a b h
    exact initial_glider_support_one a b h
  · decide

theorem local_count_two_zero_rank0 :
    local_alive_count (rows_per_process 2) (world_after 2 standard_glider 0 0).grid = 0 := by
  simp only [world_after, Function.iterate_zero, id]
  rw [local_alive_count_of_window _ _ ∅ 0 0 0 0]
  · rfl
  · decide
  · intro i j _
    rw [initial_glider_two_rank0 i j]
    decide
  · decide

theorem local_count_two_zero_rank1 :
    local_alive_count (rows_per_process 2) (world_after 2 standard_glider 0 1).grid = 4 := by
  simp only [world_after, Function.iterate_zero, id]
  rw [local_alive_count_of_window _ _ {(1, 1501), (2, 1499), (2, 1500), (2, 1501)}
    0 3 1499 1502]
  · rfl
  · decide
  · intro i j h
    have hq : ¬ (i < 3 ∧ 1499 ≤ j ∧ j < 1502) := by
      intro hc
      exact h ⟨⟨Nat.zero_le i, hc.1⟩, hc.2⟩
    rw [initial_glider_two_rank1 i j hq]
    decide
  · decide

theorem exchange_two_rank0 (grids : Nat → Grid) :
    exchange 2 grids 0 = setRow (grids 0) 1501 (grids 1 1) := by
  have h : rows_per_process 2 - 1 = 1501 := by decide
  simp only [exchange, after_downstream, after_upstream, h]
  rfl

theorem exchange_two_rank1 (grids : Nat → Grid) :
    exchange 2 grids 1 = setRow (grids 1) 0 (grids 0 1500) := by
  have h : rows_per_process 2 - 2 = 1500 := by decide
  simp only [exchange, after_downstream, after_upstream, h]
  rfl

theorem local_count_two_one_rank0 :
    local_alive_count (rows_per_process 2) (world_after 2 standard_glider 1 0).grid = 0 := by
  simp only [world_after, Function.iterate_one]
  rw [local_alive_count_generation 2 _ 0 ∅ 1501 1502 1499 1502]
  · rfl
  · decide
  · intro a b h
    rw [exchange_two_rank0, setRow_apply]
    by_cases hc : a = 1501 ∧ b < WIDTH
    · rw [if_pos hc]
      have hq : ¬ (1 < 3 ∧ 1499 ≤ b ∧ b < 1502) := by
        intro hb
        apply h
        rw [hc.1]
        exact ⟨by decide, hb.2⟩
      exact initial_glider_two_rank1 1 b hq
    · rw [if_neg hc]
      exact initial_glider_two_rank0 a b
  · decide

theorem local_count_two_one_rank1 :
    local_alive_count (rows_per_process 2) (world_after 2 standard_glider 1 1).grid = 4 := by
  simp only [world_after, Function.iterate_one]
  rw [local_alive_count_generation 2 _ 1 {(1, 1501), (2, 1500), (2, 1501), (3, 1500)}
    1 3 1499 1502]
  · rfl
  · decide
  · intro a b h
    rw [exchange_two_rank1, setRow_apply]
    by_cases hc : a = 0 ∧ b < WIDTH
    · rw [if_pos hc]
      exact initial_glider_two_rank0 1500 b
    · rw [if_neg hc]
      have hW : WIDTH = 3000 := rfl
      have hq : ¬ (a < 3 ∧ 1499 ≤ b ∧ b < 1502) := by
        rw [hW] at hc
        intro hb
        obtain ⟨hb1, hb2, hb3⟩ := hb
        have ha : 1 ≤ a := by
          rcases Nat.eq_zero_or_pos a with h0 | h0
          · exact absurd ⟨h0, Nat.lt_trans hb3 (by decide)⟩ hc
          · exact h0
        exact h ⟨⟨ha, hb1⟩, hb2, hb3⟩
      exact initial_glider_two_rank1 a b hq
  · decide

theorem global_alive_count_one (w : World) (a : Nat)
    (h0 : local_alive_count (rows_per_process 1) (w 0).grid = a) :
    global_alive_count 1 w = a := by
  rw [global_alive_count_eq_sum, Finset.sum_range_one, h0]

theorem global_alive_count_two (w : World) (a b : Nat)
    (h0 : local_alive_count (rows_per_process 2) (w 0).grid = a)
    (h1 : local_alive_count (rows_per_process 2) (w 1).grid = b) :
    global_alive_count 2 w = a + b := by
  rw [global_alive_count_eq_sum, Finset.sum_range_succ, Finset.sum_range_one, h0, h1]

/-- C3, the program at the failing input: the standard 3 × 3 glider (binary), `N = 0` and
`N = 1` generations. One worker reports 5 live cells; two workers report 4, because
worker 1 has `start_row = 0` and writes the first row of the pattern into its top ghost
row, which is not counted and is overwritten by the first halo exchange. -/
theorem partition_invariance_divergence :
    (1 ≤ 1 ∧ 1 ≤ HEIGHT) ∧ (1 ≤ 2 ∧ 2 ≤ HEIGHT) ∧
    (∀ i j, standard_glider.glider i j = 0 ∨ standard_glider.glider i j = 1) ∧
    run 1 standard_glider 0 = Except.ok 5 ∧ run 2 standard_glider 0 = Except.ok 4 ∧
    run 1 standard_glider 1 = Except.ok 5 ∧ run 2 standard_glider 1 = Except.ok 4 := by
  refine ⟨by decide, by decide, ?_, ?_, ?_, ?_, ?_⟩
  · intro i j
    unfold standard_glider
    simp only
    split <;> simp
  · rw [run_ok 1 _ _ (by decide) (by decide),
      global_alive_count_one _ 5 local_count_one_zero]
  · rw [run_ok 2 _ _ (by decide) (by decide),
      global_alive_count_two _ 0 4 local_count_two_zero_rank0 local_count_two_zero_rank1]
  · rw [run_ok 1 _ _ (by decide) (by decide),
      global_alive_count_one _ 5 local_count_one_one]
  · rw [run_ok 2 _ _ (by decide) (by decide),
      global_alive_count_two _ 0 4 local_count_two_one_rank0 local_count_two_one_rank1]

/-! ## Neighbour counting (C4) -/

theorem clipped_eq_column_clipped (grid : Grid) (r : Nat) (hr : r < WIDTH) (c : Int) :
    clipped grid r c = column_clipped grid r c := by
  unfold clipped column_clipped
  have hH : (HEIGHT : Int) = (WIDTH : Int) := rfl
  have hr2 : (r : Int) ≥ 0 ∧ (r : Int) < (WIDTH : Int) := ⟨Int.natCast_nonneg r, by exact_mod_cast hr⟩
  by_cases hc : 0 ≤ c ∧ c < (WIDTH : Int)
  · have h : (r : Int) ≥ 0 ∧ (r : Int) < (WIDTH : Int) ∧ c ≥ 0 ∧ c < (HEIGHT : Int) :=
      ⟨hr2.1, hr2.2, hc.1, by rw [hH]; exact hc.2⟩
    rw [if_pos h, if_pos hc, Int.toNat_natCast]
  · have h : ¬ ((r : Int) ≥ 0 ∧ (r : Int) < (WIDTH : Int) ∧ c ≥ 0 ∧ c < (HEIGHT : Int)) := by
      rintro ⟨-, -, h3, h4⟩
      exact hc ⟨h3, by rw [← hH]; exact h4⟩
    rw [if_neg h, if_neg hc]

/-- On a row `i` with `1 ≤ i` and `i + 1 < WIDTH` the function `count_live_neighbors`
returns the neighbour count of the specification: the row test `nx < WIDTH` of line 31
passes for the three rows, and the column test `ny < HEIGHT` is the column clipping
because `HEIGHT = WIDTH`. -/
theorem count_live_neighbors_eq_moore_sum (grid : Grid) (i j : Nat) (hi : 1 ≤ i)
    (hi2 : i + 1 < WIDTH) : count_live_neighbors i j grid = moore_sum grid i j := by
  rw [count_live_neighbors_eq]
  unfold moore_sum
  have e1 : ((i : Int) - 1) = ((i - 1 : Nat) : Int) := by omega
  have e2 : ((i : Int) + 1) = ((i + 1 : Nat) : Int) := by omega
  rw [e1, e2]
  rw [clipped_eq_column_clipped grid (i - 1) (by omega),
    clipped_eq_column_clipped grid (i - 1) (by omega),
    clipped_eq_column_clipped grid (i - 1) (by omega),
    clipped_eq_column_clipped grid i (by omega),
    clipped_eq_column_clipped grid i (by omega),
    clipped_eq_column_clipped grid (i + 1) (by omega),
    clipped_eq_column_clipped grid (i + 1) (by omega),
    clipped_eq_column_clipped grid (i + 1) (by omega)]

/-- With at least two workers every owned row satisfies `i + 1 < WIDTH`, so the kernel
calls `count_live_neighbors` only where it agrees with the specification. -/
theorem count_live_neighbors_owned (size : Nat) (h1 : 2 ≤ size) (grid : Grid)
    (i j : Nat) (hi : 1 ≤ i) (hi2 : i ≤ rows_per_process size - 2) :
    count_live_neighbors i j grid = moore_sum grid i j := by
  apply count_live_neighbors_eq_moore_sum grid i j hi
  have hL : HEIGHT / size ≤ HEIGHT / 2 := Nat.div_le_div_left h1 (by decide)
  have hH : HEIGHT / 2 = 1500 := by decide
  have hW : WIDTH = 3000 := rfl
  unfold rows_per_process at hi2
  omega

/-- C4, the program at the failing input: one worker (`rows_per_process = 3002`), the
owned local row `i = 3000`, the column `j = 1`, and the buffer whose only live cell is
`grid[3000][0]`, the left neighbour of `(3000, 1)`. The specification counts it;
`count_live_neighbors` returns `0`, because line 31 tests the row `nx = 3000` against
`WIDTH = 3000`. -/
theorem neighbor_count_divergence :
    (1 ≤ 1 ∧ 1 ≤ HEIGHT) ∧ (1 ≤ 3000 ∧ 3000 ≤ rows_per_process 1 - 2) ∧ 1 < WIDTH ∧
    count_live_neighbors 3000 1 last_row_cell = 0 ∧ moore_sum last_row_cell 3000 1 = 1 := by
  decide

/-! ## The automaton rule (C5) -/

theorem next_state_eq_one_iff (c n : Int) (hbin : c = 0 ∨ c = 1) :
    next_state c n = 1 ↔ n = 3 ∨ (c = 1 ∧ n = 2) := by
  unfold next_state
  rcases hbin with rfl | rfl
  · by_cases h3 : n = 3
    · simp [h3]
    · simp [h3]
  · by_cases h : n < 2 ∨ n > 3
    · have h' : ¬ (n = 3 ∨ n = 2) := by omega
      simp [h, h']
    · have h' : n = 3 ∨ n = 2 := by omega
      simp [h, h']

/-- C5: for an owned cell `(i, j)` with value `c ∈ {0, 1}` and `n` live neighbours,
whatever `n` is (in particular for `0 ≤ n ≤ 8`), the value the kernel writes to `new_grid[i][j]` is `1` exactly when `n = 3`
or (`c = 1` and `n = 2`); a live cell with `n < 2` or `n > 3` becomes `0`, a dead cell
with `n = 3` becomes `1`, and every other cell keeps its value `c`. -/
theorem automaton_rule (rpp : Nat) (grid new_grid : Grid) (i j : Nat) (c n : Int)
    (hi : 1 ≤ i) (hi2 : i ≤ rpp - 2) (hj : j < WIDTH)
    (hc : grid i j = c) (hn : count_live_neighbors i j grid = n)
    (hbin : c = 0 ∨ c = 1) :
    (kernel rpp grid new_grid i j = 1 ↔ n = 3 ∨ (c = 1 ∧ n = 2)) ∧
    (c = 1 → (n < 2 ∨ n > 3) → kernel rpp grid new_grid i j = 0) ∧
    (c = 0 → n = 3 → kernel rpp grid new_grid i j = 1) ∧
    (¬ (c = 1 ∧ (n < 2 ∨ n > 3)) → ¬ (c = 0 ∧ n = 3) → kernel rpp grid new_grid i j = c) := by
  have hk : kernel rpp grid new_grid i j = next_state c n := by
    rw [kernel_apply, if_pos ⟨⟨hi, by omega⟩, hj⟩]
    unfold next_cell
    rw [hc, hn]
  rw [hk]
  refine ⟨next_state_eq_one_iff c n hbin, ?_, ?_, ?_⟩
  · intro h1 h2
    unfold next_state
    rw [if_pos ⟨h1, h2⟩]
  · intro h1 h2
    unfold next_state
    have h : ¬ (c = 1 ∧ (n < 2 ∨ n > 3)) := by
      rintro ⟨h3, -⟩
      rw [h1] at h3
      exact absurd h3 (by decide)
    rw [if_neg h, if_pos ⟨h1, h2⟩]
  · intro h1 h2
    unfold next_state
    rw [if_neg h1, if_neg h2]

/-- C5, witness: the dead cell `(2, 1)` below three live cells has `n = 3` live
neighbours and is written as `1`. -/
theorem automaton_rule_witness :
    (kernel 4 three_in_a_row zero_grid 2 1 = 1 ↔ (3 : Int) = 3 ∨ ((0 : Int) = 1 ∧ (3 : Int) = 2)) ∧
    ((0 : Int) = 1 → ((3 : Int) < 2 ∨ (3 : Int) > 3) → kernel 4 three_in_a_row zero_grid 2 1 = 0) ∧
    ((0 : Int) = 0 → (3 : Int) = 3 → kernel 4 three_in_a_row zero_grid 2 1 = 1) ∧
    (¬ ((0 : Int) = 1 ∧ ((3 : Int) < 2 ∨ (3 : Int) > 3)) → ¬ ((0 : Int) = 0 ∧ (3 : Int) = 3) →
      kernel 4 three_in_a_row zero_grid 2 1 = 0) :=
  automaton_rule 4 three_in_a_row zero_grid 2 1 0 3 (by decide) (by decide) (by decide)
    (by decide) (by decide) (by decide)

/-! ## Halo exchange (C6) -/

theorem startup_fault_of_gt (size rank : Nat) (p : Pattern) (h1 : 1 ≤ size)
    (h2 : HEIGHT < size) : (startup size rank p).2 = Except.error Fault.div_by_zero := by
  have hs : size ≠ 0 := by omega
  have hd : HEIGHT / size = 0 := Nat.div_eq_of_lt h2
  have hr : rows_per_process size - 2 = 0 := by
    unfold rows_per_process
    omega
  simp only [startup, if_neg hs, if_pos hr]

/-- The upstream exchange writes local row `0` only. -/
theorem after_upstream_of_ne (rpp : Nat) (grids : Nat → Grid) (r a b : Nat) (ha : a ≠ 0) :
    after_upstream rpp grids r a b = grids r a b := by
  cases r with
  | zero => rfl
  | succ r =>
    have h : ¬ (a = 0 ∧ b < WIDTH) := fun hc => ha hc.1
    simp only [after_upstream, setRow_apply, if_neg h]

theorem after_upstream_ghost (rpp : Nat) (hrpp : rpp - 2 ≠ 0) (grids : Nat → Grid)
    (r j : Nat) (hj : j < WIDTH) :
    after_upstream rpp grids (r + 1) 0 j = grids r (rpp - 2) j := by
  have h : (0 : Nat) = 0 ∧ j < WIDTH := ⟨rfl, hj⟩
  show setRow (grids (r + 1)) 0 (after_upstream rpp grids r (rpp - 2)) 0 j = _
  rw [setRow_apply, if_pos h]
  exact after_upstream_of_ne rpp grids r (rpp - 2) j hrpp

/-- The postcondition of the halo exchange for a worker count whose slabs are not empty. -/
theorem exchange_post (size : Nat) (grids : Nat → Grid) (hL : rows_per_process size - 2 ≠ 0) :
    (∀ r j, 0 < r → r < size → j < WIDTH →
      exchange size grids r 0 j = grids (r - 1) (rows_per_process size - 2) j) ∧
    (∀ r j, r + 1 < size → j < WIDTH →
      exchange size grids r (rows_per_process size - 1) j = grids (r + 1) 1 j) ∧
    (∀ r i j, r < size → 1 ≤ i → i ≤ rows_per_process size - 2 →
      exchange size grids r i j = grids r i j) := by
  refine ⟨?_, ?_, ?_⟩
  · intro r j hr _ hj
    obtain ⟨k, rfl⟩ : ∃ k, r = k + 1 := ⟨r - 1, by omega⟩
    have hne : ¬ ((0 : Nat) = rows_per_process size - 1 ∧ j < WIDTH) := by omega
    rw [Nat.add_sub_cancel]
    unfold exchange after_downstream
    by_cases hd : k + 1 + 1 < size
    · rw [if_pos hd, setRow_apply, if_neg hne]
      exact after_upstream_ghost _ hL grids k j hj
    · rw [if_neg hd]
      exact after_upstream_ghost _ hL grids k j hj
  · intro r j hr hj
    unfold exchange after_downstream
    rw [if_pos hr, setRow_apply, if_pos ⟨rfl, hj⟩]
  · intro r i j _ hi hi2
    have hne : ¬ (i = rows_per_process size - 1 ∧ j < WIDTH) := by omega
    unfold exchange after_downstream
    by_cases hd : r + 1 < size
    · rw [if_pos hd, setRow_apply, if_neg hne]
      exact after_upstream_of_ne _ grids r i j (by omega)
    · rw [if_neg hd]
      exact after_upstream_of_ne _ grids r i j (by omega)

/-- C6: for every worker count `size ≥ 1` and all current buffers `grids`: either
`HEIGHT < size` and the run of every worker ends in the division by zero of line 62
before the main loop, so that no exchange phase exists; or `size ≤ HEIGHT` and after the
exchange phase every worker `r > 0` has its top ghost row (local row `0`) equal to the
last owned row (local row `rows_per_process - 2`) of worker `r - 1` before the exchange,
every worker `r < size - 1` has its bottom ghost row (local row `rows_per_process - 1`)
equal to the first owned row (local row `1`) of worker `r + 1`, and no owned row of any
worker has changed. -/
theorem halo_exchange_postcondition (size : Nat) (grids : Nat → Grid) (h1 : 1 ≤ size) :
    (HEIGHT < size ∧
      ∀ rank p, (startup size rank p).2 = Except.error Fault.div_by_zero) ∨
    (size ≤ HEIGHT ∧
      (∀ rank p, ∃ b, (startup size rank p).2 = Except.ok b) ∧
      (∀ r j, 0 < r → r < size → j < WIDTH →
        exchange size grids r 0 j = grids (r - 1) (rows_per_process size - 2) j) ∧
      (∀ r j, r + 1 < size → j < WIDTH →
        exchange size grids r (rows_per_process size - 1) j = grids (r + 1) 1 j) ∧
      (∀ r i j, r < size → 1 ≤ i → i ≤ rows_per_process size - 2 →
        exchange size grids r i j = grids r i j)) := by
  by_cases h2 : HEIGHT < size
  · exact Or.inl ⟨h2, fun rank p => startup_fault_of_gt size rank p h1 h2⟩
  · have h3 : size ≤ HEIGHT := by omega
    have hL := owned_count_pos size h1 h3
    unfold owned_count at hL
    have hs : size ≠ 0 := by omega
    have hr : ¬ (rows_per_process size - 2 = 0) := by omega
    refine Or.inr ⟨h3, ?_, exchange_post size grids hr⟩
    intro rank p
    simp only [startup, if_neg hs, if_neg hr]
    exact ⟨_, rfl⟩

/-- C6, witness with three workers whose cells are stamped `10 * rank + row`
(`rows_per_process = 1002`): worker 1 receives row `1000` of worker 0 into its row `0`
and row `1` of worker 2 into its row `1001`, and its owned row `1` is unchanged. -/
theorem halo_exchange_postcondition_witness :
    (1 ≤ 3 ∧ 3 ≤ HEIGHT) ∧
    exchange 3 rank_row_stamp 1 0 5 = 1000 ∧
    exchange 3 rank_row_stamp 1 (rows_per_process 3 - 1) 5 = 21 ∧
    exchange 3 rank_row_stamp 1 1 5 = 11 := by
  refine ⟨by decide, ?_⟩
  rcases halo_exchange_postcondition 3 rank_row_stamp (by decide) with h | h
  · exact absurd h.1 (by decide)
  · obtain ⟨-, -, hup, hdown, hown⟩ := h
    refine ⟨?_, ?_, ?_⟩
    · rw [hup 1 5 (by decide) (by decide) (by decide)]
      decide
    · rw [hdown 1 5 (by decide) (by decide)]
      decide
    · rw [hown 1 1 5 (by decide) (by decide) (by decide)]
      decide

/-! ## Pattern placement (C7) -/

/-- The worker that places the pattern is the owner of the target row `HEIGHT / 2`. -/
theorem placing_rank_owns (size : Nat) (h1 : 1 ≤ size) (h2 : size ≤ HEIGHT) :
    owns size (placing_rank (rows_per_process size)) (HEIGHT / 2) :=
  (owns_iff_div size _ _ (owned_count_pos size h1 h2)).2 rfl

/-- C7, the program at two failing inputs. With `size = 2` the placing worker is rank 1,
the owner of the target row `1500`, and `start_row = 0`: the first pattern row is written
into local row `0`, the top ghost row (the cell `glider[0][1] = 1` of the standard glider
lands in `grid[0][1500]`). With `size = 151` (`rows_per_process = 21`) `start_row = 18`
and a pattern of height 3 is written into the local rows `18, 19, 20`, of which `20` is
the bottom ghost row. Line 66 indexes `grid[start_row + i]` without the ghost-row
offset `+ 1`. -/
theorem placement_divergence :
    ((1 ≤ 2 ∧ 2 ≤ HEIGHT) ∧ placing_rank (rows_per_process 2) = 1 ∧ owns 2 1 (HEIGHT / 2) ∧
      start_row (rows_per_process 2) = 0 ∧ ¬ (1 ≤ start_row (rows_per_process 2)) ∧
      (initial_world 2 standard_glider 1).grid 0 1500 = 1) ∧
    ((1 ≤ 151 ∧ 151 ≤ HEIGHT) ∧ rows_per_process 151 = 21 ∧
      start_row (rows_per_process 151) = 18 ∧
      ¬ (start_row (rows_per_process 151) + standard_glider.GLIDER_HEIGHT - 1
          ≤ rows_per_process 151 - 2) ∧
      (initial_world 151 standard_glider (placing_rank (rows_per_process 151))).grid 20 1500
        = 1) := by
  decide
/-! ## Configuration errors (C8) -/

/-- C8, counterexample: with `size = 3001 > HEIGHT` workers the run does not end with a
configuration error reported before any allocation: both buffers (2 rows each) are
allocated first, and the run ends in the division by zero of line 62. -/
theorem configuration_error_counterexample :
    HEIGHT < 3001 ∧
    (startup 3001 0 standard_glider).1 = [Event.alloc 2, Event.alloc 2] ∧
    (startup 3001 0 standard_glider).2 = Except.error Fault.div_by_zero ∧
    ¬ ((startup 3001 0 standard_glider).1 = [] ∧
        (startup 3001 0 standard_glider).2 = Except.error Fault.config_error) := by
  have h1 : (startup 3001 0 standard_glider).1 = [Event.alloc 2, Event.alloc 2] := by
    simp only [startup]
    decide
  refine ⟨by decide, h1, startup_fault_of_gt 3001 0 standard_glider (by decide) (by decide), ?_⟩
  rw [h1]
  intro h
  exact absurd h.1 (by decide)

/-- C8, amended: `main` has no configuration check and no run ends with a configuration
error. When `HEIGHT < size` (and `size ≥ 1`) every worker computes
`rows_per_process = 2`, allocates and zero-fills both 2-row buffers (lines 51-59), and the
run ends in the placement test of line 62, whose divisor `rows_per_process - 2` is `0`. -/
theorem configuration_error_amended (size rank : Nat) (p : Pattern) (h1 : 1 ≤ size)
    (h2 : HEIGHT < size) :
    rows_per_process size = 2 ∧ rows_per_process size - 2 = 0 ∧
    (startup size rank p).1 = [Event.alloc 2, Event.alloc 2] ∧
    (startup size rank p).2 = Except.error Fault.div_by_zero ∧
    (∀ size' rank' p', (startup size' rank' p').2 ≠ Except.error Fault.config_error) := by
  have hs : size ≠ 0 := by omega
  have hd : HEIGHT / size = 0 := Nat.div_eq_of_lt h2
  have hr : rows_per_process size = 2 := by
    unfold rows_per_process
    omega
  have hr0 : rows_per_process size - 2 = 0 := by omega
  refine ⟨hr, hr0, ?_, startup_fault_of_gt size rank p h1 h2, ?_⟩
  · simp only [startup, if_neg hs, hr]
    rfl
  · intro size' rank' p'
    unfold startup
    by_cases hs' : size' = 0
    · rw [if_pos hs']
      intro h
      cases h
    · rw [if_neg hs']
      by_cases hr' : rows_per_process size' - 2 = 0
      · simp only [if_pos hr']
        intro h
        cases h
      · simp only [if_neg hr']
        intro h
        cases h

/-- C8, witness of the amended statement at `size = 3001`. -/
theorem configuration_error_amended_witness :
    (1 ≤ 3001 ∧ HEIGHT < 3001) ∧
    (rows_per_process 3001 = 2 ∧ rows_per_process 3001 - 2 = 0 ∧
    (startup 3001 0 standard_glider).1 = [Event.alloc 2, Event.alloc 2] ∧
    (startup 3001 0 standard_glider).2 = Except.error Fault.div_by_zero ∧
    (∀ size' rank' p', (startup size' rank' p').2 ≠ Except.error Fault.config_error)) :=
  ⟨by decide, configuration_error_amended 3001 0 standard_glider (by decide) (by decide)⟩

/-! ## Reduction (C9) -/

theorem local_alive_count_eq_live (rpp : Nat) (grid : Grid) :
    local_alive_count rpp grid = live_in_owned_rows rpp grid := by
  rw [local_alive_count_eq_card]
  unfold live_in_owned_rows
  have h : Finset.Ico 1 (1 + (rpp - 2)) = Finset.Icc 1 (rpp - 2) := by
    ext x
    simp only [Finset.mem_Ico, Finset.mem_Icc]
    omega
  rw [h]

theorem sum_range_mul (f : Nat → Nat) (L n : Nat) :
    ∑ g in Finset.range (n * L), f g
      = ∑ r in Finset.range n, ∑ k in Finset.range L, f (r * L + k) := by
  induction n with
  | zero => simp
  | succ n ih =>
    rw [Nat.succ_mul, Finset.sum_range_add, ih, Finset.sum_range_succ]

theorem live_cells_eq_sum (g : Grid) :
    live_cells g
      = ∑ r in Finset.range HEIGHT, ∑ j in Finset.range WIDTH, (if g r j = 1 then 1 else 0) := by
  unfold live_cells
  rw [Finset.card_filter, Finset.sum_product]

/-- When `size` divides `HEIGHT`, the reduced count is the number of live cells of the
global grid assembled from the owned rows. -/
theorem global_alive_count_eq_live_cells (size : Nat) (w : World) (h1 : 1 ≤ size)
    (hdvd : size ∣ HEIGHT) : global_alive_count size w = live_cells (assemble size w) := by
  have hle : size ≤ HEIGHT := Nat.le_of_dvd (by decide) hdvd
  have hL := owned_count_pos size h1 hle
  have hH : HEIGHT = size * owned_count size := by
    rw [owned_count_eq]
    exact (Nat.mul_div_cancel' hdvd).symm
  rw [global_alive_count_eq_sum, live_cells_eq_sum, hH, sum_range_mul]
  apply Finset.sum_congr rfl
  intro r _
  rw [local_alive_count_eq_sum, Finset.sum_Ico_eq_sum_range, Nat.add_sub_cancel_left]
  apply Finset.sum_congr rfl
  intro k hk
  have hk' : k < owned_count size := Finset.mem_range.1 hk
  apply Finset.sum_congr rfl
  intro j _
  unfold assemble
  have e1 : (r * owned_count size + k) / owned_count size = r := by
    rw [Nat.mul_comm, Nat.mul_add_div hL, Nat.div_eq_of_lt hk', Nat.add_zero]
  have e2 : (r * owned_count size + k) % owned_count size = k := by
    rw [Nat.mul_comm, Nat.mul_add_mod, Nat.mod_eq_of_lt hk']
  rw [e1, e2, Nat.add_comm k 1]

/-- C9: for every worker count and every final state the count delivered to rank `0` is
the sum over the workers `r < size` of the number of cells equal to `1` in the local rows
`1 .. rows_per_process - 2` of the current buffer of `r`; it does not depend on any cell
outside these rows (ghost rows contribute nothing); and when `size ≥ 1` divides `HEIGHT`
it is the number of live cells of the assembled `HEIGHT × WIDTH` global grid. -/
theorem reduction_sum (size : Nat) (w : World) :
    global_alive_count size w
      = ∑ r in Finset.range size, live_in_owned_rows (rows_per_process size) (w r).grid ∧
    (∀ w' : World,
      (∀ r i j, r < size → 1 ≤ i → i ≤ rows_per_process size - 2 → j < WIDTH →
        (w' r).grid i j = (w r).grid i j) →
      global_alive_count size w' = global_alive_count size w) ∧
    (1 ≤ size → size ∣ HEIGHT → global_alive_count size w = live_cells (assemble size w)) := by
  refine ⟨?_, ?_, global_alive_count_eq_live_cells size w⟩
  · rw [global_alive_count_eq_sum]
    apply Finset.sum_congr rfl
    intro r _
    exact local_alive_count_eq_live _ _
  · intro w' h
    rw [global_alive_count_eq_sum, global_alive_count_eq_sum]
    apply Finset.sum_congr rfl
    intro r hr
    rw [local_alive_count_eq_sum, local_alive_count_eq_sum]
    apply Finset.sum_congr rfl
    intro i hi
    apply Finset.sum_congr rfl
    intro j hj
    have hi' := Finset.mem_Ico.1 hi
    rw [h r i j (Finset.mem_range.1 hr) hi'.1 (by omega) (Finset.mem_range.1 hj)]

/-- C9, witness with two workers after placement of the standard glider: overwriting the
top ghost rows changes nothing, and the count is the number of live cells of the
assembled grid. -/
theorem reduction_sum_witness :
    (1 ≤ 2 ∧ 2 ∣ HEIGHT) ∧
    global_alive_count 2
        (fun r => { grid := setRow (initial_world 2 standard_glider r).grid 0 (fun _ => 7),
                    new_grid := zero_grid })
      = global_alive_count 2 (initial_world 2 standard_glider) ∧
    global_alive_count 2 (initial_world 2 standard_glider)
      = live_cells (assemble 2 (initial_world 2 standard_glider)) := by
  refine ⟨by decide, ?_, (reduction_sum 2 (initial_world 2 standard_glider)).2.2
    (by decide) (by decide)⟩
  apply (reduction_sum 2 (initial_world 2 standard_glider)).2.1
  intro r i j _ hi _ _
  have h : ¬ (i = 0 ∧ j < WIDTH) := by omega
  show setRow (initial_world 2 standard_glider r).grid 0 (fun _ => 7) i j = _
  rw [setRow_apply, if_neg h]

/-! ## Still life (C10) -/

/-- C10, the program at the failing input: one worker and the 2 × 2 block in the last two
rows of the global grid (global rows `2998`, `2999`, columns `0`, `1`), every other cell
dead. The owned cell of global position `(2998, 0)` (local row `2999`) is alive at the
start and dead after one generation: `count_live_neighbors` skips the row `nx = 3000` and
returns `1` instead of `3`. In the sequential reference the cell stays alive. Same defect
as C2 and C4. -/
theorem still_life_divergence :
    (1 ≤ 1 ∧ 1 ≤ HEIGHT ∧ 1 ∣ HEIGHT) ∧ (2998 + 1 < HEIGHT ∧ 0 + 1 < WIDTH) ∧
    (distribute 1 (block 2998 0) 0).grid (2998 + 1) 0 = 1 ∧
    count_live_neighbors 2999 0 (exchange 1 (fun r => (distribute 1 (block 2998 0) r).grid) 0)
      = 1 ∧
    (Nat.iterate (generation 1) 1 (distribute 1 (block 2998 0)) 0).grid (2998 + 1) 0 = 0 ∧
    ref_neighbors (block 2998 0) 2998 0 = 3 ∧
    ref_run (block 2998 0) 1 2998 0 = 1 := by
  refine ⟨by decide, by decide, by decide, by decide, ?_, by decide, by decide⟩
  rw [Function.iterate_one, generation_grid_apply]
  decide

/-! ## The distributed generation against the sequential reference -/

theorem rows_per_process_eq (size : Nat) : rows_per_process size = owned_count size + 2 := by
  rw [owned_count_eq]
  rfl

/-- Rank `0` skips the upstream exchange: its top ghost row is not written. -/
theorem exchange_edge_top (size : Nat) (grids : Nat → Grid) (j : Nat) :
    exchange size grids 0 0 j = grids 0 0 j := by
  have hne : ¬ ((0 : Nat) = rows_per_process size - 1 ∧ j < WIDTH) := by
    rw [rows_per_process_eq]
    omega
  unfold exchange after_downstream
  by_cases hd : 0 + 1 < size
  · rw [if_pos hd, setRow_apply, if_neg hne]
    rfl
  · rw [if_neg hd]
    rfl

/-- Rank `size - 1` skips the downstream exchange: its bottom ghost row is not written. -/
theorem exchange_edge_bottom (size : Nat) (grids : Nat → Grid) (r j : Nat)
    (hr : r + 1 = size) :
    exchange size grids r (rows_per_process size - 1) j
      = grids r (rows_per_process size - 1) j := by
  have hd : ¬ (r + 1 < size) := by omega
  unfold exchange after_downstream
  rw [if_neg hd]
  apply after_upstream_of_ne
  rw [rows_per_process_eq]
  omega

theorem ref_cell_of_lt (G : Grid) (g b : Nat) (hg : g < HEIGHT) (hb : b < WIDTH) :
    ref_cell G (g : Int) (b : Int) = G g b := by
  unfold ref_cell
  have h : 0 ≤ (g : Int) ∧ (g : Int) < (HEIGHT : Int) ∧ 0 ≤ (b : Int) ∧ (b : Int) < (WIDTH : Int) :=
    ⟨Int.natCast_nonneg g, by exact_mod_cast hg, Int.natCast_nonneg b, by exact_mod_cast hb⟩
  rw [if_pos h, Int.toNat_natCast, Int.toNat_natCast]

theorem ref_cell_of_row_out (G : Grid) (x c : Int) (hx : x < 0 ∨ (HEIGHT : Int) ≤ x) :
    ref_cell G x c = 0 := by
  unfold ref_cell
  apply if_neg
  intro h
  omega

theorem ref_cell_of_col_out (G : Grid) (x c : Int) (hc : ¬ (0 ≤ c ∧ c < (WIDTH : Int))) :
    ref_cell G x c = 0 := by
  unfold ref_cell
  apply if_neg
  intro h
  exact hc ⟨h.2.2.1, h.2.2.2⟩

theorem assemble_apply (size : Nat) (w : World) (hL : 0 < owned_count size) (r k j : Nat)
    (hk : k < owned_count size) :
    assemble size w (r * owned_count size + k) j = (w r).grid (k + 1) j := by
  unfold assemble
  have e1 : (r * owned_count size + k) / owned_count size = r := by
    rw [Nat.mul_comm, Nat.mul_add_div hL, Nat.div_eq_of_lt hk, Nat.add_zero]
  have e2 : (r * owned_count size + k) % owned_count size = k := by
    rw [Nat.mul_comm, Nat.mul_add_mod, Nat.mod_eq_of_lt hk]
  rw [e1, e2]

/-- After the exchange, the local row `k` (ghost or owned) of worker `r` is the global
row `r * L + k - 1` of the assembled grid, or a row of zeros when that row lies outside
the grid. -/
theorem exchanged_row (size : Nat) (w : World) (h1 : 1 ≤ size)
    (hH : size * owned_count size = HEIGHT) (hz : edge_ghost_zero size w)
    (r k b : Nat) (hr : r < size) (hk : k ≤ owned_count size + 1) (hb : b < WIDTH) :
    exchange size (fun r => (w r).grid) r k b
      = ref_cell (assemble size w) (((r * owned_count size + k : Nat) : Int) - 1) b := by
  have hL : 0 < owned_count size := by
    rcases Nat.eq_zero_or_pos (owned_count size) with h0 | h0
    · rw [h0, Nat.mul_zero] at hH
      exact absurd hH.symm (by decide)
    · exact h0
  have hLne : rows_per_process size - 2 ≠ 0 := by
    unfold owned_count at hL
    omega
  obtain ⟨hup, hdown, hown⟩ := exchange_post size (fun r => (w r).grid) hLne
  have hrL : r * owned_count size + owned_count size ≤ size * owned_count size := by
    calc r * owned_count size + owned_count size = (r + 1) * owned_count size := by
          rw [Nat.succ_mul]
      _ ≤ size * owned_count size := Nat.mul_le_mul_right _ hr
  rcases Nat.eq_zero_or_pos k with hk0 | hkpos
  · -- top ghost row
    subst hk0
    rcases Nat.eq_zero_or_pos r with hr0 | hrpos
    · subst hr0
      rw [exchange_edge_top, (hz b hb).1, ref_cell_of_row_out]
      left
      simp
    · rw [hup r b hrpos hr hb]
      obtain ⟨q, rfl⟩ : ∃ q, r = q + 1 := ⟨r - 1, by omega⟩
      have hx : (((q + 1) * owned_count size + 0 : Nat) : Int) - 1
          = ((q * owned_count size + (owned_count size - 1) : Nat) : Int) := by
        rw [Nat.succ_mul]
        omega
      rw [hx, ref_cell_of_lt _ _ _ (by rw [Nat.succ_mul] at hrL; omega) hb,
        assemble_apply size w hL q (owned_count size - 1) b (by omega)]
      have e : owned_count size - 1 + 1 = rows_per_process size - 2 := by
        unfold owned_count at hL ⊢
        omega
      rw [e, Nat.add_sub_cancel]
  · rcases Nat.lt_or_ge k (owned_count size + 1) with hkl | hkg
    · -- owned row
      rw [hown r k b hr hkpos (by unfold owned_count at hkl; omega)]
      have hx : ((r * owned_count size + k : Nat) : Int) - 1
          = ((r * owned_count size + (k - 1) : Nat) : Int) := by omega
      rw [hx, ref_cell_of_lt _ _ _ (by omega) hb,
        assemble_apply size w hL r (k - 1) b (by omega)]
      have e : k - 1 + 1 = k := by omega
      rw [e]
    · -- bottom ghost row
      have hkeq : k = rows_per_process size - 1 := by
        rw [rows_per_process_eq]
        omega
      rcases Nat.lt_or_ge (r + 1) size with hlt | hge
      · rw [hkeq, hdown r b hlt hb]
        have hx : ((r * owned_count size + (rows_per_process size - 1) : Nat) : Int) - 1
            = (((r + 1) * owned_count size + 0 : Nat) : Int) := by
          rw [rows_per_process_eq, Nat.succ_mul]
          omega
        have hlt2 : (r + 1) * owned_count size + 0 < HEIGHT := by
          rw [← hH]
          have : (r + 1) * owned_count size + owned_count size ≤ size * owned_count size := by
            calc (r + 1) * owned_count size + owned_count size
                = (r + 1 + 1) * owned_count size := by rw [Nat.succ_mul (r + 1)]
              _ ≤ size * owned_count size := Nat.mul_le_mul_right _ hlt
          omega
        rw [hx, ref_cell_of_lt _ _ _ hlt2 hb, assemble_apply size w hL (r + 1) 0 b hL]
      · have hrs : r + 1 = size := by omega
        have hr1 : r = size - 1 := by omega
        rw [hkeq, exchange_edge_bottom size _ r b hrs]
        rw [ref_cell_of_row_out]
        · show (w r).grid (rows_per_process size - 1) b = 0
          rw [hr1]
          exact (hz b hb).2.2.1
        · right
          have e1 : r * owned_count size + owned_count size = HEIGHT := by
            rw [← hH, ← hrs, Nat.succ_mul]
          have e2 : rows_per_process size - 1 = owned_count size + 1 := by
            rw [rows_per_process_eq]
            rfl
          rw [e2]
          omega

theorem exchanged_row_clipped (size : Nat) (w : World) (h1 : 1 ≤ size)
    (hH : size * owned_count size = HEIGHT) (hz : edge_ghost_zero size w)
    (r k : Nat) (c : Int) (hr : r < size) (hk : k ≤ owned_count size + 1) :
    column_clipped (exchange size (fun r => (w r).grid) r) k c
      = ref_cell (assemble size w) (((r * owned_count size + k : Nat) : Int) - 1) c := by
  by_cases hc : 0 ≤ c ∧ c < (WIDTH : Int)
  · obtain ⟨b, rfl⟩ : ∃ b : Nat, c = (b : Int) := ⟨c.toNat, (Int.toNat_of_nonneg hc.1).symm⟩
    have hb : b < WIDTH := by exact_mod_cast hc.2
    unfold column_clipped
    rw [if_pos hc, Int.toNat_natCast]
    exact exchanged_row size w h1 hH hz r k b hr hk hb
  · unfold column_clipped
    rw [if_neg hc, ref_cell_of_col_out _ _ _ hc]

/-- One generation on an owned cell: the cell of local row `i` of worker `r` becomes what
the sequential reference computes for the global row `r * L + (i - 1)`. -/
theorem generation_owned_cell (size : Nat) (w : World) (h2 : 2 ≤ size)
    (hH : size * owned_count size = HEIGHT) (hz : edge_ghost_zero size w)
    (r i j : Nat) (hr : r < size) (hi : 1 ≤ i) (hi2 : i ≤ owned_count size)
    (hj : j < WIDTH) :
    (generation size w r).grid i j
      = ref_step (assemble size w) (r * owned_count size + (i - 1)) j := by
  have h1 : 1 ≤ size := by omega
  have hi3 : i ≤ rows_per_process size - 2 := hi2
  have hrL : r * owned_count size + owned_count size ≤ size * owned_count size := by
    calc r * owned_count size + owned_count size = (r + 1) * owned_count size := by
          rw [Nat.succ_mul]
      _ ≤ size * owned_count size := Nat.mul_le_mul_right _ hr
  have hg : r * owned_count size + (i - 1) < HEIGHT := by omega
  rw [generation_grid_apply, if_pos ⟨⟨hi, by omega⟩, hj⟩]
  unfold ref_step
  rw [if_pos ⟨hg, hj⟩]
  unfold next_cell next_state ref_rule
  have hcell : exchange size (fun r => (w r).grid) r i j
      = assemble size w (r * owned_count size + (i - 1)) j := by
    rw [exchanged_row size w h1 hH hz r i j hr (by omega) hj]
    have hx : ((r * owned_count size + i : Nat) : Int) - 1
        = ((r * owned_count size + (i - 1) : Nat) : Int) := by omega
    rw [hx, ref_cell_of_lt _ _ _ hg hj]
  have hcount : count_live_neighbors i j (exchange size (fun r => (w r).grid) r)
      = ref_neighbors (assemble size w) (r * owned_count size + (i - 1)) j := by
    rw [count_live_neighbors_owned size h2 _ i j hi hi3]
    unfold moore_sum ref_neighbors
    have e1 : (((r * owned_count size + (i - 1) : Nat) : Int) - 1)
        = ((r * owned_count size + (i - 1) : Nat) : Int) - 1 := rfl
    have e2 : ((r * owned_count size + (i - 1) : Nat) : Int)
        = ((r * owned_count size + i : Nat) : Int) - 1 := by omega
    have e3 : ((r * owned_count size + (i - 1) : Nat) : Int) + 1
        = ((r * owned_count size + (i + 1) : Nat) : Int) - 1 := by omega
    rw [exchanged_row_clipped size w h1 hH hz r (i - 1) _ hr (by omega),
      exchanged_row_clipped size w h1 hH hz r (i - 1) _ hr (by omega),
      exchanged_row_clipped size w h1 hH hz r (i - 1) _ hr (by omega),
      exchanged_row_clipped size w h1 hH hz r i _ hr (by omega),
      exchanged_row_clipped size w h1 hH hz r i _ hr (by omega),
      exchanged_row_clipped size w h1 hH hz r (i + 1) _ hr (by omega),
      exchanged_row_clipped size w h1 hH hz r (i + 1) _ hr (by omega),
      exchanged_row_clipped size w h1 hH hz r (i + 1) _ hr (by omega)]
    rw [e3, ← e2]
  rw [hcell, hcount]

/-- One generation of the workers is one step of the sequential reference on the
assembled grid, for at least two workers and a worker count that divides `HEIGHT`. -/
theorem assemble_generation (size : Nat) (w : World) (h2 : 2 ≤ size)
    (hH : size * owned_count size = HEIGHT) (hz : edge_ghost_zero size w) :
    agree (assemble size (generation size w)) (ref_step (assemble size w)) := by
  intro g j hg hj
  have hL : 0 < owned_count size := by
    rcases Nat.eq_zero_or_pos (owned_count size) with h0 | h0
    · rw [h0, Nat.mul_zero] at hH
      exact absurd hH.symm (by decide)
    · exact h0
  have hr : g / owned_count size < size := by
    apply (Nat.div_lt_iff_lt_mul hL).2
    rw [hH]
    exact hg
  have hk : g % owned_count size < owned_count size := Nat.mod_lt _ hL
  have hgeq : g / owned_count size * owned_count size + g % owned_count size = g :=
    Nat.div_add_mod' g _
  have h := generation_owned_cell size w h2 hH hz (g / owned_count size)
    (g % owned_count size + 1) j hr (by omega) (by omega) hj
  rw [Nat.add_sub_cancel, hgeq] at h
  exact h

/-- A generation leaves the ghost rows at the two edges of the global grid zero. -/
theorem edge_ghost_zero_generation (size : Nat) (w : World) (h1 : 1 ≤ size)
    (hz : edge_ghost_zero size w) : edge_ghost_zero size (generation size w) := by
  intro j hj
  obtain ⟨z1, z2, z3, z4⟩ := hz j hj
  have hrpp := rows_per_process_eq size
  refine ⟨?_, ?_, ?_, ?_⟩
  · rw [generation_grid_apply]
    have h : ¬ ((1 ≤ 0 ∧ 0 < 1 + (rows_per_process size - 2)) ∧ j < WIDTH) := by omega
    rw [if_neg h]
    exact z2
  · show exchange size (fun r => (w r).grid) 0 0 j = 0
    rw [exchange_edge_top]
    exact z1
  · rw [generation_grid_apply]
    have h : ¬ ((1 ≤ rows_per_process size - 1 ∧
        rows_per_process size - 1 < 1 + (rows_per_process size - 2)) ∧ j < WIDTH) := by omega
    rw [if_neg h]
    exact z4
  · show exchange size (fun r => (w r).grid) (size - 1) (rows_per_process size - 1) j = 0
    rw [exchange_edge_bottom size _ (size - 1) j (by omega)]
    exact z3

theorem ref_cell_congr (G G' : Grid) (h : agree G G') (x c : Int) :
    ref_cell G x c = ref_cell G' x c := by
  unfold ref_cell
  by_cases hc : 0 ≤ x ∧ x < (HEIGHT : Int) ∧ 0 ≤ c ∧ c < (WIDTH : Int)
  · rw [if_pos hc, if_pos hc]
    apply h
    · have := Int.toNat_of_nonneg hc.1
      omega
    · have := Int.toNat_of_nonneg hc.2.2.1
      omega
  · rw [if_neg hc, if_neg hc]

theorem ref_step_congr (G G' : Grid) (h : agree G G') : agree (ref_step G) (ref_step G') := by
  intro g j hg hj
  unfold ref_step
  rw [if_pos ⟨hg, hj⟩, if_pos ⟨hg, hj⟩, h g j hg hj]
  unfold ref_neighbors
  simp only [ref_cell_congr G G' h]

theorem ref_run_succ (G : Grid) (N : Nat) : ref_run G (N + 1) = ref_step (ref_run G N) := by
  unfold ref_run
  exact Function.iterate_succ_apply' ref_step N G

theorem ref_run_congr (G G' : Grid) (h : agree G G') (N : Nat) :
    agree (ref_run G N) (ref_run G' N) := by
  induction N with
  | zero => exact h
  | succ N ih =>
    rw [ref_run_succ, ref_run_succ]
    exact ref_step_congr _ _ ih

theorem live_cells_congr (G G' : Grid) (h : agree G G') : live_cells G = live_cells G' := by
  rw [live_cells_eq_sum, live_cells_eq_sum]
  apply Finset.sum_congr rfl
  intro g hg
  apply Finset.sum_congr rfl
  intro j hj
  rw [h g j (Finset.mem_range.1 hg) (Finset.mem_range.1 hj)]

/-- `N` generations of the workers are `N` steps of the sequential reference on the
assembled grid, for at least two workers and a worker count that divides `HEIGHT`. -/
theorem assemble_iterate (size : Nat) (w : World) (h2 : 2 ≤ size)
    (hH : size * owned_count size = HEIGHT) (hz : edge_ghost_zero size w) (N : Nat) :
    edge_ghost_zero size (Nat.iterate (generation size) N w) ∧
    agree (assemble size (Nat.iterate (generation size) N w))
      (ref_run (assemble size w) N) := by
  induction N with
  | zero =>
    refine ⟨hz, ?_⟩
    intro g j _ _
    rfl
  | succ N ih =>
    obtain ⟨hzN, hag⟩ := ih
    rw [Function.iterate_succ_apply', ref_run_succ]
    refine ⟨edge_ghost_zero_generation size _ (by omega) hzN, ?_⟩
    intro g j hg hj
    rw [assemble_generation size _ h2 hH hzN g j hg hj]
    exact ref_step_congr _ _ hag g j hg hj

/-- The initial current buffer of a worker in closed form, for a pattern at most as wide
as the grid. -/
theorem initial_world_apply (size : Nat) (p : Pattern) (hw : p.GLIDER_WIDTH / 2 ≤ WIDTH / 2)
    (rank a b : Nat) :
    (initial_world size p rank).grid a b
      = if rank = placing_rank (rows_per_process size) ∧
            (start_row (rows_per_process size) ≤ a ∧
              a < start_row (rows_per_process size) + p.GLIDER_HEIGHT) ∧
            WIDTH / 2 - p.GLIDER_WIDTH / 2 ≤ b ∧
            b < WIDTH / 2 - p.GLIDER_WIDTH / 2 + p.GLIDER_WIDTH then
          p.glider (a - start_row (rows_per_process size))
            (b - (WIDTH / 2 - p.GLIDER_WIDTH / 2))
        else 0 := by
  simp only [initial_world, init_pattern]
  by_cases h : rank = placing_rank (rows_per_process size)
  · rw [if_pos h, place_pattern_apply p hw]
    simp only [h, true_and]
    rfl
  · rw [if_neg h]
    simp only [h, false_and, if_false]
    rfl

theorem edge_ghost_zero_initial (size : Nat) (p : Pattern)
    (hfit : pattern_in_owned_rows size p) : edge_ghost_zero size (initial_world size p) := by
  obtain ⟨hs1, hs2, hw, -⟩ := hfit
  intro j _
  refine ⟨?_, rfl, ?_, rfl⟩
  · rw [initial_world_apply size p hw]
    apply if_neg
    intro h
    omega
  · rw [initial_world_apply size p hw]
    apply if_neg
    intro h
    omega

/-- The assembled initial grid is the pattern with its first row in the global row
`HEIGHT / 2 - 1`, when the pattern lies inside the owned rows of the placing worker. -/
theorem assemble_initial (size : Nat) (p : Pattern) (h1 : 1 ≤ size) (h2 : size ≤ HEIGHT)
    (hfit : pattern_in_owned_rows size p) :
    agree (assemble size (initial_world size p)) (pattern_grid p) := by
  obtain ⟨hs1, hs2, hw, -⟩ := hfit
  have hL := owned_count_pos size h1 h2
  have hrpp := rows_per_process_eq size
  intro g j _ _
  unfold assemble pattern_grid
  rw [initial_world_apply size p hw]
  have hT : placing_rank (rows_per_process size) * owned_count size
      + start_row (rows_per_process size) = HEIGHT / 2 := Nat.div_add_mod' _ _
  have hg : g / owned_count size * owned_count size + g % owned_count size = g :=
    Nat.div_add_mod' _ _
  have hgm : g % owned_count size < owned_count size := Nat.mod_lt _ hL
  by_cases hc : (HEIGHT / 2 - 1 ≤ g ∧ g < HEIGHT / 2 - 1 + p.GLIDER_HEIGHT) ∧
      WIDTH / 2 - p.GLIDER_WIDTH / 2 ≤ j ∧
      j < WIDTH / 2 - p.GLIDER_WIDTH / 2 + p.GLIDER_WIDTH
  · have hq : g / owned_count size = placing_rank (rows_per_process size) := by
      apply Nat.div_eq_of_lt_le
      · omega
      · rw [Nat.succ_mul]
        omega
    have hc' : g / owned_count size = placing_rank (rows_per_process size) ∧
        (start_row (rows_per_process size) ≤ g % owned_count size + 1 ∧
          g % owned_count size + 1 < start_row (rows_per_process size) + p.GLIDER_HEIGHT) ∧
        WIDTH / 2 - p.GLIDER_WIDTH / 2 ≤ j ∧
        j < WIDTH / 2 - p.GLIDER_WIDTH / 2 + p.GLIDER_WIDTH := by
      rw [hq] at hg
      refine ⟨hq, ⟨?_, ?_⟩, hc.2⟩
      · omega
      · omega
    rw [if_pos hc, if_pos hc']
    have e : g % owned_count size + 1 - start_row (rows_per_process size)
        = g - (HEIGHT / 2 - 1) := by
      rw [hq] at hg
      omega
    rw [e]
  · have hc' : ¬ (g / owned_count size = placing_rank (rows_per_process size) ∧
        (start_row (rows_per_process size) ≤ g % owned_count size + 1 ∧
          g % owned_count size + 1 < start_row (rows_per_process size) + p.GLIDER_HEIGHT) ∧
        WIDTH / 2 - p.GLIDER_WIDTH / 2 ≤ j ∧
        j < WIDTH / 2 - p.GLIDER_WIDTH / 2 + p.GLIDER_WIDTH) := by
      rintro ⟨hq, ⟨ha, hb⟩, hcol⟩
      apply hc
      rw [hq] at hg
      refine ⟨⟨?_, ?_⟩, hcol⟩
      · omega
      · omega
    rw [if_neg hc, if_neg hc']

/-- The whole run against the sequential reference: for at least two workers, a worker
count that divides `HEIGHT` and a pattern that lies inside the owned rows of the placing
worker, the reported count is the number of live cells after `N` steps of the sequential
reference started from the pattern at global row `HEIGHT / 2 - 1`. -/
theorem run_eq_reference (size : Nat) (p : Pattern) (N : Nat) (h2 : 2 ≤ size)
    (hdvd : size ∣ HEIGHT) (hfit : pattern_in_owned_rows size p) :
    run size p N = Except.ok (live_cells (ref_run (pattern_grid p) N)) := by
  have h1 : 1 ≤ size := by omega
  have hle : size ≤ HEIGHT := Nat.le_of_dvd (by decide) hdvd
  have hH : size * owned_count size = HEIGHT := by
    rw [owned_count_eq]
    exact Nat.mul_div_cancel' hdvd
  obtain ⟨-, hag⟩ := assemble_iterate size (initial_world size p) h2 hH
    (edge_ghost_zero_initial size p hfit) N
  rw [run_ok size p N h1 hle, global_alive_count_eq_live_cells size _ h1 hdvd]
  unfold world_after
  rw [live_cells_congr _ _ hag,
    live_cells_congr _ _ (ref_run_congr _ _ (assemble_initial size p h1 hle hfit) N)]

/-- With 3 and with 5 workers the standard glider lies inside the owned rows of the
placing worker, and both runs report the same count after any number of generations. -/
theorem run_three_eq_run_five (N : Nat) :
    run 3 standard_glider N = run 5 standard_glider N := by
  rw [run_eq_reference 3 standard_glider N (by decide) (by decide) (by decide),
    run_eq_reference 5 standard_glider N (by decide) (by decide) (by decide)]

/-! ## The glider (C11) -/

/-- A plane pattern whose live offsets lie in `[0, 3] × [0, 3]` is dead, after one
generation, at every offset outside `[-1, 4] × [-1, 4]`. -/
theorem plane_step_far (S : List (Int × Int))
    (hS : ∀ p ∈ S, 0 ≤ p.1 ∧ p.1 ≤ 3 ∧ 0 ≤ p.2 ∧ p.2 ≤ 3) (a b : Int)
    (hfar : ¬ (-1 ≤ a ∧ a ≤ 4 ∧ -1 ≤ b ∧ b ≤ 4)) : plane_step (shape S) a b = 0 := by
  have hz : ∀ x y : Int, a - 1 ≤ x → x ≤ a + 1 → b - 1 ≤ y → y ≤ b + 1 → shape S x y = 0 := by
    intro x y h1 h2 h3 h4
    unfold shape
    apply if_neg
    intro hmem
    have := hS _ hmem
    simp only at this
    omega
  unfold plane_step plane_neighbors
  rw [hz a b (by omega) (by omega) (by omega) (by omega),
    hz (a - 1) (b - 1) (by omega) (by omega) (by omega) (by omega),
    hz (a - 1) b (by omega) (by omega) (by omega) (by omega),
    hz (a - 1) (b + 1) (by omega) (by omega) (by omega) (by omega),
    hz a (b - 1) (by omega) (by omega) (by omega) (by omega),
    hz a (b + 1) (by omega) (by omega) (by omega) (by omega),
    hz (a + 1) (b - 1) (by omega) (by omega) (by omega) (by omega),
    hz (a + 1) b (by omega) (by omega) (by omega) (by omega),
    hz (a + 1) (b + 1) (by omega) (by omega) (by omega) (by omega)]
  rfl

/-- One generation of a plane pattern with live offsets in `[0, 3] × [0, 3]`, checked
offset by offset on `[-1, 4] × [-1, 4]`. -/
theorem plane_step_shape (S S' : List (Int × Int))
    (hS : ∀ p ∈ S, 0 ≤ p.1 ∧ p.1 ≤ 3 ∧ 0 ≤ p.2 ∧ p.2 ≤ 3)
    (hS' : ∀ p ∈ S', 0 ≤ p.1 ∧ p.1 ≤ 3 ∧ 0 ≤ p.2 ∧ p.2 ≤ 3)
    (hnear : ∀ i : Nat, i < 6 → ∀ j : Nat, j < 6 →
      plane_step (shape S) ((i : Int) - 1) ((j : Int) - 1)
        = shape S' ((i : Int) - 1) ((j : Int) - 1))
    (a b : Int) : plane_step (shape S) a b = shape S' a b := by
  by_cases hwin : -1 ≤ a ∧ a ≤ 4 ∧ -1 ≤ b ∧ b ≤ 4
  · have h := hnear (a + 1).toNat (by omega) (b + 1).toNat (by omega)
    have ea : (((a + 1).toNat : Nat) : Int) - 1 = a := by omega
    have eb : (((b + 1).toNat : Nat) : Int) - 1 = b := by omega
    rw [ea, eb] at h
    exact h
  · rw [plane_step_far S hS a b hwin]
    unfold shape
    symm
    apply if_neg
    intro hmem
    have := hS' _ hmem
    simp only at this
    omega

theorem glider_phase01 (a b : Int) :
    plane_step (shape glider_phase0) a b = shape glider_phase1 a b :=
  plane_step_shape _ _ (by decide) (by decide) (by decide) a b

theorem glider_phase12 (a b : Int) :
    plane_step (shape glider_phase1) a b = shape glider_phase2 a b :=
  plane_step_shape _ _ (by decide) (by decide) (by decide) a b

theorem glider_phase23 (a b : Int) :
    plane_step (shape glider_phase2) a b = shape glider_phase3 a b :=
  plane_step_shape _ _ (by decide) (by decide) (by decide) a b

theorem glider_phase34 (a b : Int) :
    plane_step (shape glider_phase3) a b = shape glider_phase4 a b :=
  plane_step_shape _ _ (by decide) (by decide) (by decide) a b

theorem ref_cell_embed (r c : Nat) (P : Int → Int → Int)
    (hsup : ∀ a b, P a b ≠ 0 →
      0 ≤ (r : Int) + a ∧ (r : Int) + a < (HEIGHT : Int) ∧
      0 ≤ (c : Int) + b ∧ (c : Int) + b < (WIDTH : Int))
    (x y : Int) : ref_cell (embed r c P) x y = P (x - r) (y - c) := by
  unfold ref_cell
  by_cases h : 0 ≤ x ∧ x < (HEIGHT : Int) ∧ 0 ≤ y ∧ y < (WIDTH : Int)
  · rw [if_pos h]
    unfold embed
    rw [Int.toNat_of_nonneg h.1, Int.toNat_of_nonneg h.2.2.1]
  · rw [if_neg h]
    by_contra hne
    have := hsup (x - r) (y - c) (fun h0 => hne h0.symm)
    apply h
    omega

/-- One step of the sequential reference on an embedded plane pattern whose live cells
lie inside the grid is the embedded plane step. -/
theorem ref_step_embed (r c : Nat) (P : Int → Int → Int)
    (hsup : ∀ a b, P a b ≠ 0 →
      0 ≤ (r : Int) + a ∧ (r : Int) + a < (HEIGHT : Int) ∧
      0 ≤ (c : Int) + b ∧ (c : Int) + b < (WIDTH : Int)) :
    agree (ref_step (embed r c P)) (embed r c (plane_step P)) := by
  intro g j hg hj
  unfold ref_step
  rw [if_pos ⟨hg, hj⟩]
  unfold ref_neighbors
  simp only [ref_cell_embed r c P hsup]
  have e1 : (g : Int) - 1 - (r : Int) = (g : Int) - (r : Int) - 1 := by omega
  have e2 : (g : Int) + 1 - (r : Int) = (g : Int) - (r : Int) + 1 := by omega
  have e3 : (j : Int) - 1 - (c : Int) = (j : Int) - (c : Int) - 1 := by omega
  have e4 : (j : Int) + 1 - (c : Int) = (j : Int) - (c : Int) + 1 := by omega
  rw [e1, e2, e3, e4]
  rfl

theorem shape_support (S : List (Int × Int))
    (hS : ∀ p ∈ S, 0 ≤ p.1 ∧ p.1 ≤ 3 ∧ 0 ≤ p.2 ∧ p.2 ≤ 3) (r c : Nat)
    (hr : r + 3 < HEIGHT) (hc : c + 3 < WIDTH) (a b : Int) (h : shape S a b ≠ 0) :
    0 ≤ (r : Int) + a ∧ (r : Int) + a < (HEIGHT : Int) ∧
      0 ≤ (c : Int) + b ∧ (c : Int) + b < (WIDTH : Int) := by
  have hmem : (a, b) ∈ S := by
    by_contra hn
    apply h
    unfold shape
    exact if_neg hn
  have := hS _ hmem
  simp only at this
  omega

theorem agree_trans (G1 G2 G3 : Grid) (h12 : agree G1 G2) (h23 : agree G2 G3) :
    agree G1 G3 := by
  intro g j hg hj
  rw [h12 g j hg hj, h23 g j hg hj]

/-- The neighbour count of the program is that of the specification also on the rows
`i` with `i + 1 ≥ WIDTH`, when every row from `WIDTH` on that is read holds only zeros. -/
theorem count_live_neighbors_eq_moore_sum_of_zero (grid : Grid) (i j : Nat) (hi : 1 ≤ i)
    (hz : ∀ k b, WIDTH ≤ k → k ≤ i + 1 → b < WIDTH → grid k b = 0) :
    count_live_neighbors i j grid = moore_sum grid i j := by
  have key : ∀ (k : Nat) (c : Int), k ≤ i + 1 →
      clipped grid (k : Int) c = column_clipped grid k c := by
    intro k c hk
    by_cases hkw : k < WIDTH
    · exact clipped_eq_column_clipped grid k hkw c
    · have hn : ¬ ((k : Int) ≥ 0 ∧ (k : Int) < (WIDTH : Int) ∧ c ≥ 0 ∧ c < (HEIGHT : Int)) := by
        intro h
        omega
      unfold clipped column_clipped
      rw [if_neg hn]
      by_cases hc : 0 ≤ c ∧ c < (WIDTH : Int)
      · rw [if_pos hc]
        symm
        apply hz k c.toNat (by omega) hk
        have := Int.toNat_of_nonneg hc.1
        omega
      · rw [if_neg hc]
  rw [count_live_neighbors_eq]
  unfold moore_sum
  have e1 : ((i : Int) - 1) = ((i - 1 : Nat) : Int) := by omega
  have e2 : ((i : Int) + 1) = ((i + 1 : Nat) : Int) := by omega
  rw [e1, e2]
  rw [key (i - 1) _ (by omega), key (i - 1) _ (by omega), key (i - 1) _ (by omega),
    key i _ (by omega), key i _ (by omega),
    key (i + 1) _ (by omega), key (i + 1) _ (by omega), key (i + 1) _ (by omega)]

/-- One generation on an owned cell for any worker count that divides `HEIGHT`, given
that the neighbour count of the program at the cell is that of the specification. -/
theorem generation_owned_cell_of_count (size : Nat) (w : World) (h1 : 1 ≤ size)
    (hH : size * owned_count size = HEIGHT) (hz : edge_ghost_zero size w)
    (r i j : Nat) (hr : r < size) (hi : 1 ≤ i) (hi2 : i ≤ owned_count size)
    (hj : j < WIDTH)
    (hcnt : count_live_neighbors i j (exchange size (fun r => (w r).grid) r)
      = moore_sum (exchange size (fun r => (w r).grid) r) i j) :
    (generation size w r).grid i j
      = ref_step (assemble size w) (r * owned_count size + (i - 1)) j := by
  have hrL : r * owned_count size + owned_count size ≤ size * owned_count size := by
    calc r * owned_count size + owned_count size = (r + 1) * owned_count size := by
          rw [Nat.succ_mul]
      _ ≤ size * owned_count size := Nat.mul_le_mul_right _ hr
  have hg : r * owned_count size + (i - 1) < HEIGHT := by omega
  rw [generation_grid_apply, if_pos ⟨⟨hi, by unfold owned_count at hi2; omega⟩, hj⟩]
  unfold ref_step
  rw [if_pos ⟨hg, hj⟩]
  unfold next_cell next_state ref_rule
  have hcell : exchange size (fun r => (w r).grid) r i j
      = assemble size w (r * owned_count size + (i - 1)) j := by
    rw [exchanged_row size w h1 hH hz r i j hr (by omega) hj]
    have hx : ((r * owned_count size + i : Nat) : Int) - 1
        = ((r * owned_count size + (i - 1) : Nat) : Int) := by omega
    rw [hx, ref_cell_of_lt _ _ _ hg hj]
  have hcount : count_live_neighbors i j (exchange size (fun r => (w r).grid) r)
      = ref_neighbors (assemble size w) (r * owned_count size + (i - 1)) j := by
    rw [hcnt]
    unfold moore_sum ref_neighbors
    have e2 : ((r * owned_count size + (i - 1) : Nat) : Int)
        = ((r * owned_count size + i : Nat) : Int) - 1 := by omega
    have e3 : ((r * owned_count size + (i - 1) : Nat) : Int) + 1
        = ((r * owned_count size + (i + 1) : Nat) : Int) - 1 := by omega
    rw [exchanged_row_clipped size w h1 hH hz r (i - 1) _ hr (by omega),
      exchanged_row_clipped size w h1 hH hz r (i - 1) _ hr (by omega),
      exchanged_row_clipped size w h1 hH hz r (i - 1) _ hr (by omega),
      exchanged_row_clipped size w h1 hH hz r i _ hr (by omega),
      exchanged_row_clipped size w h1 hH hz r i _ hr (by omega),
      exchanged_row_clipped size w h1 hH hz r (i + 1) _ hr (by omega),
      exchanged_row_clipped size w h1 hH hz r (i + 1) _ hr (by omega),
      exchanged_row_clipped size w h1 hH hz r (i + 1) _ hr (by omega)]
    rw [e3, ← e2]
  rw [hcell, hcount]

/-- With one worker the neighbour count of the program is that of the specification on
every owned cell when the last row of the global grid holds only zeros. -/
theorem count_live_neighbors_single (w : World) (hz : edge_ghost_zero 1 w)
    (hbot : ∀ j, j < WIDTH → assemble 1 w (HEIGHT - 1) j = 0)
    (i j : Nat) (hi : 1 ≤ i) (hi2 : i ≤ owned_count 1) :
    count_live_neighbors i j (exchange 1 (fun r => (w r).grid) 0)
      = moore_sum (exchange 1 (fun r => (w r).grid) 0) i j := by
  have hL : owned_count 1 = 3000 := by decide
  have hH : 1 * owned_count 1 = HEIGHT := by decide
  have hW : WIDTH = 3000 := rfl
  have hHt : HEIGHT = 3000 := rfl
  apply count_live_neighbors_eq_moore_sum_of_zero _ i j hi
  intro k b hk hk2 hb
  rw [exchanged_row 1 w (Nat.le_refl 1) hH hz 0 k b (by decide) (by omega) hb]
  rcases Nat.lt_or_ge k 3001 with hlt | hge
  · have hk3 : k = 3000 := by omega
    subst hk3
    have hx : (((0 * owned_count 1 + 3000 : Nat) : Int) - 1) = ((2999 : Nat) : Int) := by
      rw [hL]
      rfl
    rw [hx, ref_cell_of_lt _ 2999 b (by decide) hb]
    exact hbot b hb
  · apply ref_cell_of_row_out
    right
    rw [hL, hHt]
    push_cast
    omega

/-- One generation of the workers is one step of the sequential reference on the
assembled grid for every worker count that divides `HEIGHT`, one worker included when
the last row of the global grid holds only zeros. -/
theorem assemble_generation_any (size : Nat) (w : World) (h1 : 1 ≤ size)
    (hH : size * owned_count size = HEIGHT) (hz : edge_ghost_zero size w)
    (hbot : ∀ j, j < WIDTH → assemble size w (HEIGHT - 1) j = 0) :
    agree (assemble size (generation size w)) (ref_step (assemble size w)) := by
  rcases Nat.lt_or_ge size 2 with hlt | hge
  · have hs : size = 1 := by omega
    subst hs
    intro g j hg hj
    have hL : 0 < owned_count 1 := by decide
    have hr : g / owned_count 1 < 1 := by
      apply (Nat.div_lt_iff_lt_mul hL).2
      rw [hH]
      exact hg
    have hr0 : g / owned_count 1 = 0 := Nat.lt_one_iff.1 hr
    have hk : g % owned_count 1 < owned_count 1 := Nat.mod_lt _ hL
    have hgeq : g / owned_count 1 * owned_count 1 + g % owned_count 1 = g :=
      Nat.div_add_mod' g _
    have hi1 : 1 ≤ g % owned_count 1 + 1 := Nat.succ_le_succ (Nat.zero_le _)
    have hi2 : g % owned_count 1 + 1 ≤ owned_count 1 := Nat.succ_le_of_lt hk
    have h := generation_owned_cell_of_count 1 w h1 hH hz 0
      (g % owned_count 1 + 1) j (by decide) hi1 hi2 hj
      (count_live_neighbors_single w hz hbot _ j hi1 hi2)
    rw [Nat.add_sub_cancel] at h
    rw [hr0] at hgeq
    rw [hgeq] at h
    unfold assemble
    unfold assemble at h
    rw [hr0]
    exact h
  · exact assemble_generation size w hge hH hz

theorem edge_ghost_zero_distribute (size : Nat) (G : Grid) :
    edge_ghost_zero size (distribute size G) := by
  intro j _
  have hrpp := rows_per_process_eq size
  refine ⟨?_, rfl, ?_, rfl⟩
  · show (if 1 ≤ 0 ∧ 0 ≤ owned_count size ∧ j < WIDTH then
        G (0 * owned_count size + (0 - 1)) j else 0) = 0
    apply if_neg
    intro h
    omega
  · show (if 1 ≤ rows_per_process size - 1 ∧ rows_per_process size - 1 ≤ owned_count size ∧
        j < WIDTH then
        G ((size - 1) * owned_count size + (rows_per_process size - 1 - 1)) j else 0) = 0
    apply if_neg
    intro h
    omega

/-- Assembling the distributed grid gives the grid back, when `size` divides `HEIGHT`. -/
theorem assemble_distribute (size : Nat) (G : Grid)
    (hH : size * owned_count size = HEIGHT) : agree (assemble size (distribute size G)) G := by
  intro g j _ hj
  have hL : 0 < owned_count size := by
    rcases Nat.eq_zero_or_pos (owned_count size) with h0 | h0
    · rw [h0, Nat.mul_zero] at hH
      exact absurd hH.symm (by decide)
    · exact h0
  have hk : g % owned_count size < owned_count size := Nat.mod_lt _ hL
  have hgeq : g / owned_count size * owned_count size + g % owned_count size = g :=
    Nat.div_add_mod' g _
  unfold assemble distribute
  have hc : 1 ≤ g % owned_count size + 1 ∧ g % owned_count size + 1 ≤ owned_count size ∧
      j < WIDTH := ⟨Nat.succ_le_succ (Nat.zero_le _), Nat.succ_le_of_lt hk, hj⟩
  simp only
  rw [if_pos hc, Nat.add_sub_cancel, hgeq]

theorem cells_at_phase0 (r c : Nat) :
    cells_at [(r, c + 1), (r + 1, c + 2), (r + 2, c), (r + 2, c + 1), (r + 2, c + 2)]
      = embed r c (shape glider_phase0) := by
  funext a b
  unfold cells_at embed shape glider_phase0
  apply if_congr _ rfl rfl
  simp only [List.mem_cons, List.mem_singleton, Prod.mk.injEq, List.not_mem_nil, or_false]
  omega

theorem cells_at_phase4 (r c : Nat) :
    cells_at [(r + 1, c + 2), (r + 2, c + 3), (r + 3, c + 1), (r + 3, c + 2), (r + 3, c + 3)]
      = embed r c (shape glider_phase4) := by
  funext a b
  unfold cells_at embed shape glider_phase4
  apply if_congr _ rfl rfl
  simp only [List.mem_cons, List.mem_singleton, Prod.mk.injEq, List.not_mem_nil, or_false]
  omega

/-- One generation of the workers on a grid that shows a plane pattern with live offsets
in `[0, 3] × [0, 3]` at a corner `(r, c)` with `r + 4 < HEIGHT` and `c + 3 < WIDTH`. -/
theorem embedded_generation (size : Nat) (h1 : 1 ≤ size)
    (hH : size * owned_count size = HEIGHT) (r c : Nat) (hr : r + 4 < HEIGHT)
    (hc : c + 3 < WIDTH) (S S' : List (Int × Int))
    (hS : ∀ p ∈ S, 0 ≤ p.1 ∧ p.1 ≤ 3 ∧ 0 ≤ p.2 ∧ p.2 ≤ 3)
    (hstep : ∀ a b, plane_step (shape S) a b = shape S' a b)
    (w : World) (hz : edge_ghost_zero size w)
    (hA : agree (assemble size w) (embed r c (shape S))) :
    edge_ghost_zero size (generation size w) ∧
    agree (assemble size (generation size w)) (embed r c (shape S')) := by
  refine ⟨edge_ghost_zero_generation size w h1 hz, ?_⟩
  have hbot : ∀ j, j < WIDTH → assemble size w (HEIGHT - 1) j = 0 := by
    intro j hj
    rw [hA (HEIGHT - 1) j (by decide) hj]
    unfold embed shape
    apply if_neg
    intro hmem
    have := hS _ hmem
    simp only at this
    omega
  have hsup := shape_support S hS r c (by omega) hc
  have e : plane_step (shape S) = shape S' := by
    funext a b
    exact hstep a b
  have h3 := ref_step_embed r c (shape S) hsup
  rw [e] at h3
  exact agree_trans _ _ _ (assemble_generation_any size w h1 hH hz hbot)
    (agree_trans _ _ _ (ref_step_congr _ _ hA) h3)

/-- C11: for every worker count `size ≥ 1` that divides `HEIGHT` and every glider
`(r, c+1), (r+1, c+2), (r+2, c), (r+2, c+1), (r+2, c+2)` at least 2 cells away from every
edge of the global grid, the grid assembled from the owned rows after exactly 4
generations of the program (halo exchange, kernel, swap) has as its only live cells
`(r+1, c+2), (r+2, c+3), (r+3, c+1), (r+3, c+2), (r+3, c+3)`: the same shape moved by one
row and one column. Only the distance 2 to the bottom and to the right edge is used
(`r + 2 + 2 < HEIGHT`, `c + 2 + 2 < WIDTH`); the glider may touch the top or the left
edge. -/
theorem glider_translation (size r c : Nat) (h1 : 1 ≤ size) (hdvd : size ∣ HEIGHT)
    (hr2 : r + 2 + 2 < HEIGHT) (hc2 : c + 2 + 2 < WIDTH) :
    agree
      (assemble size (Nat.iterate (generation size) 4
        (distribute size
          (cells_at [(r, c + 1), (r + 1, c + 2), (r + 2, c), (r + 2, c + 1), (r + 2, c + 2)]))))
      (cells_at
        [(r + 1, c + 2), (r + 2, c + 3), (r + 3, c + 1), (r + 3, c + 2), (r + 3, c + 3)]) := by
  have hH : size * owned_count size = HEIGHT := by
    rw [owned_count_eq]
    exact Nat.mul_div_cancel' hdvd
  have hr4 : r + 4 < HEIGHT := hr2
  have hc3 : c + 3 < WIDTH := by omega
  rw [cells_at_phase0, cells_at_phase4]
  have s0 : edge_ghost_zero size (distribute size (embed r c (shape glider_phase0))) ∧
      agree (assemble size (distribute size (embed r c (shape glider_phase0))))
        (embed r c (shape glider_phase0)) :=
    ⟨edge_ghost_zero_distribute size _, assemble_distribute size _ hH⟩
  have s1 := embedded_generation size h1 hH r c hr4 hc3 glider_phase0 glider_phase1
    (by decide) glider_phase01 _ s0.1 s0.2
  have s2 := embedded_generation size h1 hH r c hr4 hc3 glider_phase1 glider_phase2
    (by decide) glider_phase12 _ s1.1 s1.2
  have s3 := embedded_generation size h1 hH r c hr4 hc3 glider_phase2 glider_phase3
    (by decide) glider_phase23 _ s2.1 s2.2
  have s4 := embedded_generation size h1 hH r c hr4 hc3 glider_phase3 glider_phase4
    (by decide) glider_phase34 _ s3.1 s3.2
  exact s4.2

/-- C11, witness with 4 workers (750 rows each) and the glider at rows `748 .. 750`,
which straddles the slabs of workers 0 and 1. -/
theorem glider_translation_witness :
    (1 ≤ 4 ∧ 4 ∣ HEIGHT) ∧ (2 ≤ 748 ∧ 748 + 2 + 2 < HEIGHT) ∧ (2 ≤ 10 ∧ 10 + 2 + 2 < WIDTH) ∧
    agree
      (assemble 4 (Nat.iterate (generation 4) 4
        (distribute 4
          (cells_at [(748, 10 + 1), (748 + 1, 10 + 2), (748 + 2, 10), (748 + 2, 10 + 1),
            (748 + 2, 10 + 2)]))))
      (cells_at
        [(748 + 1, 10 + 2), (748 + 2, 10 + 3), (748 + 3, 10 + 1), (748 + 3, 10 + 2),
          (748 + 3, 10 + 3)]) :=
  ⟨by decide, by decide, by decide,
    glider_translation 4 748 10 (by decide) (by decide) (by decide) (by decide)⟩

/-! ## Index safety of `count_live_neighbors` (C12) -/

/-- The cells read so far are inside the window around `(x, y)` and pass the test of
line 31. -/
theorem neighbor_step_reads_mem (x y dx dy : Int) (reads : List (Int × Int))
    (hdx : -1 ≤ dx ∧ dx ≤ 1)
    (h : ∀ p ∈ reads, (x - 1 ≤ p.1 ∧ p.1 ≤ x + 1) ∧
      0 ≤ p.1 ∧ p.1 < (WIDTH : Int) ∧ 0 ≤ p.2 ∧ p.2 < (HEIGHT : Int)) :
    ∀ p ∈ neighbor_step_reads x y dx dy reads, (x - 1 ≤ p.1 ∧ p.1 ≤ x + 1) ∧
      0 ≤ p.1 ∧ p.1 < (WIDTH : Int) ∧ 0 ≤ p.2 ∧ p.2 < (HEIGHT : Int) := by
  intro p hp
  simp only [neighbor_step_reads] at hp
  by_cases h1 : dx ≠ 0 ∨ dy ≠ 0
  · rw [if_pos h1] at hp
    by_cases h2 : x + dx ≥ 0 ∧ x + dx < (WIDTH : Int) ∧ y + dy ≥ 0 ∧ y + dy < (HEIGHT : Int)
    · rw [if_pos h2] at hp
      rcases List.mem_append.1 hp with hm | hm
      · exact h p hm
      · rw [List.mem_singleton] at hm
        subst hm
        simp only
        omega
    · rw [if_neg h2] at hp
      exact h p hp
  · rw [if_neg h1] at hp
    exact h p hp

/-- The running count is the sum of the cells read so far. -/
theorem neighbor_step_sum (x y : Int) (grid : Grid) (dx dy count : Int)
    (reads : List (Int × Int))
    (h : count = (reads.map (fun p => grid p.1.toNat p.2.toNat)).sum) :
    neighbor_step x y grid dx dy count
      = ((neighbor_step_reads x y dx dy reads).map (fun p => grid p.1.toNat p.2.toNat)).sum := by
  simp only [neighbor_step, neighbor_step_reads]
  by_cases h1 : dx ≠ 0 ∨ dy ≠ 0
  · rw [if_pos h1, if_pos h1]
    by_cases h2 : x + dx ≥ 0 ∧ x + dx < (WIDTH : Int) ∧ y + dy ≥ 0 ∧ y + dy < (HEIGHT : Int)
    · rw [if_pos h2, if_pos h2, List.map_append, List.sum_append, h]
      simp
    · rw [if_neg h2, if_neg h2, h]
  · rw [if_neg h1, if_neg h1, h]

theorem neighbor_step_reads_length (x y dx dy : Int) (reads : List (Int × Int)) :
    (neighbor_step_reads x y dx dy reads).length ≤ reads.length + 1 := by
  simp only [neighbor_step_reads]
  split_ifs <;> simp

theorem neighbor_step_reads_skip (x y dx dy : Int) (reads : List (Int × Int))
    (h : (dx = 0 ∧ dy = 0) ∨ y + dy < 0 ∨ (HEIGHT : Int) ≤ y + dy) :
    neighbor_step_reads x y dx dy reads = reads := by
  simp only [neighbor_step_reads]
  by_cases h1 : dx ≠ 0 ∨ dy ≠ 0
  · rw [if_pos h1]
    apply if_neg
    intro h2
    omega
  · rw [if_neg h1]

/-- The value `count_live_neighbors` returns is the sum of the cells it reads. -/
theorem count_live_neighbors_eq_sum_reads (x y : Int) (grid : Grid) :
    count_live_neighbors x y grid
      = ((neighbor_reads x y).map (fun p => grid p.1.toNat p.2.toNat)).sum := by
  simp only [count_live_neighbors, neighbor_reads, List.foldl]
  repeat apply neighbor_step_sum
  rfl

theorem neighbor_reads_mem (x y : Int) :
    ∀ p ∈ neighbor_reads x y, (x - 1 ≤ p.1 ∧ p.1 ≤ x + 1) ∧
      0 ≤ p.1 ∧ p.1 < (WIDTH : Int) ∧ 0 ≤ p.2 ∧ p.2 < (HEIGHT : Int) := by
  simp only [neighbor_reads, List.foldl]
  repeat apply neighbor_step_reads_mem _ _ _ _ _ (by decide)
  intro p hp
  exact absurd hp (List.not_mem_nil p)

theorem neighbor_step_reads_length_le (x y dx dy : Int) (reads : List (Int × Int)) (n : Nat)
    (h : reads.length ≤ n) : (neighbor_step_reads x y dx dy reads).length ≤ n + 1 :=
  Nat.le_trans (neighbor_step_reads_length x y dx dy reads) (Nat.succ_le_succ h)

/-- In the first and in the last column `count_live_neighbors` reads at most 5 cells. -/
theorem neighbor_reads_length_edge (x y : Int) (h : y = 0 ∨ y = (WIDTH : Int) - 1) :
    (neighbor_reads x y).length ≤ 5 := by
  have s0 : ∀ reads, neighbor_step_reads x y 0 0 reads = reads :=
    fun reads => neighbor_step_reads_skip x y 0 0 reads (Or.inl ⟨rfl, rfl⟩)
  simp only [neighbor_reads, List.foldl, s0]
  rcases h with h | h
  · have s1 : ∀ dx reads, neighbor_step_reads x y dx (-1) reads = reads := by
      intro dx reads
      apply neighbor_step_reads_skip
      right
      left
      omega
    simp only [s1]
    repeat apply neighbor_step_reads_length_le
    exact Nat.le_refl _
  · have s1 : ∀ dx reads, neighbor_step_reads x y dx 1 reads = reads := by
      intro dx reads
      apply neighbor_step_reads_skip
      right
      right
      have hH : (HEIGHT : Int) = (WIDTH : Int) := rfl
      omega
    simp only [s1]
    repeat apply neighbor_step_reads_length_le
    exact Nat.le_refl _

/-- C12: for every worker count `1 ≤ size ≤ HEIGHT`, every owned local row `i` and every
column `j < WIDTH`, every cell `grid[nx][ny]` that `count_live_neighbors(i, j, grid)`
reads has `0 ≤ nx < rows_per_process` and `0 ≤ ny < WIDTH`, its row `nx` being one of
`i - 1`, `i`, `i + 1`, and the value returned is the sum of the cells read; in column `0`
and in column `WIDTH - 1` at most 5 cells are read, none with a column outside
`[0, WIDTH)`. The lower bound `1 ≤ i` of an owned row is not needed: the test `nx >= 0`
of line 31 keeps the row index from being negative. -/
theorem index_safety (size i j : Nat) (h1 : 1 ≤ size) (h2 : size ≤ HEIGHT)
    (hi2 : i ≤ rows_per_process size - 2) (hj : j < WIDTH) :
    (∀ p ∈ neighbor_reads i j,
      0 ≤ p.1 ∧ p.1 < (rows_per_process size : Int) ∧ 0 ≤ p.2 ∧ p.2 < (WIDTH : Int) ∧
      (p.1 = ((i - 1 : Nat) : Int) ∨ p.1 = (i : Int) ∨ p.1 = ((i + 1 : Nat) : Int))) ∧
    (∀ grid : Grid, count_live_neighbors i j grid
      = ((neighbor_reads i j).map (fun p => grid p.1.toNat p.2.toNat)).sum) ∧
    ((j = 0 ∨ j = WIDTH - 1) → (neighbor_reads i j).length ≤ 5) := by
  have hL := owned_count_pos size h1 h2
  unfold owned_count at hL
  refine ⟨?_, fun grid => count_live_neighbors_eq_sum_reads i j grid, ?_⟩
  · intro p hp
    obtain ⟨⟨hx1, hx2⟩, hx3, -, hy1, hy2⟩ := neighbor_reads_mem i j p hp
    have hH : (HEIGHT : Int) = (WIDTH : Int) := rfl
    refine ⟨hx3, ?_, hy1, by rw [← hH]; exact hy2, ?_⟩
    · omega
    · omega
  · intro hedge
    apply neighbor_reads_length_edge
    have hW : WIDTH = 3000 := rfl
    rcases hedge with h | h
    · left
      omega
    · right
      omega

/-- C12, witness with one worker at the owned cell `(3000, 2999)` in the last row and the
last column. -/
theorem index_safety_witness :
    (1 ≤ 1 ∧ 1 ≤ HEIGHT) ∧ 3000 ≤ rows_per_process 1 - 2 ∧ 2999 < WIDTH ∧
    ((∀ p ∈ neighbor_reads (3000 : Nat) (2999 : Nat),
      0 ≤ p.1 ∧ p.1 < (rows_per_process 1 : Int) ∧ 0 ≤ p.2 ∧ p.2 < (WIDTH : Int) ∧
      (p.1 = ((3000 - 1 : Nat) : Int) ∨ p.1 = ((3000 : Nat) : Int) ∨
        p.1 = ((3000 + 1 : Nat) : Int))) ∧
    (∀ grid : Grid, count_live_neighbors (3000 : Nat) (2999 : Nat) grid
      = ((neighbor_reads (3000 : Nat) (2999 : Nat)).map
          (fun p => grid p.1.toNat p.2.toNat)).sum) ∧
    ((2999 = 0 ∨ 2999 = WIDTH - 1) → (neighbor_reads (3000 : Nat) (2999 : Nat)).length ≤ 5)) :=
  ⟨by decide, by decide, by decide,
    index_safety 1 3000 2999 (by decide) (by decide) (by decide) (by decide)⟩

/-! ## Ghost rows at the edges of the global grid (C13) -/

/-- Where the pattern lies inside the owned rows of the placing worker, the ghost rows at
the two edges of the global grid hold only zeros in both buffers after any number of
generations. -/
theorem edge_ghost_zero_world_after (size : Nat) (p : Pattern) (h1 : 1 ≤ size)
    (hfit : pattern_in_owned_rows size p) (N : Nat) :
    edge_ghost_zero size (world_after size p N) := by
  unfold world_after
  induction N with
  | zero => exact edge_ghost_zero_initial size p hfit
  | succ N ih =>
    rw [Function.iterate_succ_apply']
    exact edge_ghost_zero_generation size _ h1 ih

/-- The bottom ghost row of the last worker passes unchanged from the current buffer of
one generation to the current buffer of the generation after the next. -/
theorem edge_bottom_two_generations (size : Nat) (w : World) (h1 : 1 ≤ size) (j : Nat) :
    (generation size (generation size w) (size - 1)).grid (rows_per_process size - 1) j
      = (w (size - 1)).grid (rows_per_process size - 1) j := by
  have hrpp := rows_per_process_eq size
  have h : ¬ ((1 ≤ rows_per_process size - 1 ∧
      rows_per_process size - 1 < 1 + (rows_per_process size - 2)) ∧ j < WIDTH) := by omega
  rw [generation_grid_apply, if_neg h]
  show exchange size (fun r => (w r).grid) (size - 1) (rows_per_process size - 1) j = _
  rw [exchange_edge_bottom size _ (size - 1) j (by omega)]

/-- C13, the program at the failing input: 1501 workers (`rows_per_process = 3`) and the
standard glider. The placing worker is rank 1500, the last worker, with `start_row = 0`:
the third pattern row `1 1 1` is written into its local row `2 = rows_per_process - 1`,
the bottom ghost row at the edge of the global grid. The cell `grid[2][1499]` is `1`
after placement, in the next buffer after one generation and in the current buffer
again after two generations. Same defect as C7. -/
theorem edge_ghost_divergence :
    (1 ≤ 1501 ∧ 1501 ≤ HEIGHT) ∧ rows_per_process 1501 - 1 = 2 ∧
    placing_rank (rows_per_process 1501) = 1501 - 1 ∧ start_row (rows_per_process 1501) = 0 ∧
    (world_after 1501 standard_glider 0 (1501 - 1)).grid (rows_per_process 1501 - 1) 1499 = 1 ∧
    (world_after 1501 standard_glider 1 (1501 - 1)).new_grid (rows_per_process 1501 - 1) 1499
      = 1 ∧
    (world_after 1501 standard_glider 2 (1501 - 1)).grid (rows_per_process 1501 - 1) 1499
      = 1 := by
  have h0 : (world_after 1501 standard_glider 0 (1501 - 1)).grid (rows_per_process 1501 - 1)
      1499 = 1 := by decide
  refine ⟨by decide, by decide, by decide, by decide, h0, ?_, ?_⟩
  · show exchange 1501 (fun r => (initial_world 1501 standard_glider r).grid) (1501 - 1)
      (rows_per_process 1501 - 1) 1499 = 1
    rw [exchange_edge_bottom 1501 _ (1501 - 1) 1499 (by decide)]
    exact h0
  · show (generation 1501 (generation 1501 (initial_world 1501 standard_glider))
      (1501 - 1)).grid (rows_per_process 1501 - 1) 1499 = 1
    rw [edge_bottom_two_generations 1501 _ (by decide) 1499]
    exact h0

/-! ## The kernel pass on both buffers (C14) -/

theorem kernel_cell_step_grid (i j : Nat) (b : Buffers) :
    (kernel_cell_step i j b).grid = b.grid := rfl

theorem kernel_cell_step_new_grid (i j : Nat) (b : Buffers) :
    (kernel_cell_step i j b).new_grid = kernel_cell b.grid i j b.new_grid := rfl

theorem foldl_kernel_cell_step (g : Grid) (i n : Nat) (b : Buffers) (hb : b.grid = g) :
    ((List.range n).foldl (fun b j => kernel_cell_step i j b) b).grid = g ∧
    ((List.range n).foldl (fun b j => kernel_cell_step i j b) b).new_grid
      = (List.range n).foldl (fun ng j => kernel_cell g i j ng) b.new_grid := by
  induction n with
  | zero => exact ⟨hb, rfl⟩
  | succ n ih =>
    rw [List.range_succ, List.foldl_append, List.foldl_append]
    simp only [List.foldl_cons, List.foldl_nil]
    refine ⟨?_, ?_⟩
    · rw [kernel_cell_step_grid]
      exact ih.1
    · rw [kernel_cell_step_new_grid, ih.1, ih.2]

theorem foldl_kernel_rows_step (g : Grid) (n : Nat) (b : Buffers) (hb : b.grid = g) :
    ((List.range' 1 n).foldl
        (fun b i => (List.range WIDTH).foldl (fun b j => kernel_cell_step i j b) b) b).grid
      = g ∧
    ((List.range' 1 n).foldl
        (fun b i => (List.range WIDTH).foldl (fun b j => kernel_cell_step i j b) b) b).new_grid
      = (List.range' 1 n).foldl (fun ng i => kernel_row g i ng) b.new_grid := by
  induction n with
  | zero => exact ⟨hb, rfl⟩
  | succ n ih =>
    rw [List.range'_1_concat, List.foldl_append, List.foldl_append]
    simp only [List.foldl_cons, List.foldl_nil]
    have h := foldl_kernel_cell_step g (1 + n) WIDTH _ ih.1
    refine ⟨h.1, ?_⟩
    rw [h.2, ih.2]
    rfl

/-- The kernel pass on both buffers leaves the current buffer as it is and computes the
next buffer that `kernel` computes from the current buffer before the pass. -/
theorem kernel_pass_eq (rpp : Nat) (b : Buffers) :
    (kernel_pass rpp b).grid = b.grid ∧
    (kernel_pass rpp b).new_grid = kernel rpp b.grid b.new_grid := by
  unfold kernel_pass kernel
  exact foldl_kernel_rows_step b.grid (rpp - 2) b rfl

/-- C14: during one kernel pass the current buffer is not modified; in the next buffer
exactly the cells of the owned rows `1 .. rows_per_process - 2` (columns `0 .. WIDTH - 1`)
are written, every other cell and in particular the two ghost rows `0` and
`rows_per_process - 1` keep their values; every written cell is
`next_state (grid[i][j]) (count_live_neighbors(i, j, grid))` for the current buffer `grid`
before the pass, so two passes that start from the same current buffer write the same
cells whatever the next buffer held. -/
theorem kernel_frame (rpp : Nat) (b : Buffers) :
    (kernel_pass rpp b).grid = b.grid ∧
    (∀ i j, 1 ≤ i → i ≤ rpp - 2 → j < WIDTH →
      (kernel_pass rpp b).new_grid i j
        = next_state (b.grid i j) (count_live_neighbors i j b.grid)) ∧
    (∀ i j, ¬ (1 ≤ i ∧ i ≤ rpp - 2 ∧ j < WIDTH) →
      (kernel_pass rpp b).new_grid i j = b.new_grid i j) ∧
    (∀ j, (kernel_pass rpp b).new_grid 0 j = b.new_grid 0 j) ∧
    (∀ j, 2 ≤ rpp → (kernel_pass rpp b).new_grid (rpp - 1) j = b.new_grid (rpp - 1) j) ∧
    (∀ b' : Buffers, b'.grid = b.grid → ∀ i j, 1 ≤ i → i ≤ rpp - 2 → j < WIDTH →
      (kernel_pass rpp b').new_grid i j = (kernel_pass rpp b).new_grid i j) := by
  have hin : ∀ (c : Buffers) i j, 1 ≤ i → i ≤ rpp - 2 → j < WIDTH →
      (kernel_pass rpp c).new_grid i j
        = next_state (c.grid i j) (count_live_neighbors i j c.grid) := by
    intro c i j h1 h2 h3
    rw [(kernel_pass_eq rpp c).2, kernel_apply, if_pos ⟨⟨h1, by omega⟩, h3⟩]
    rfl
  have hout : ∀ i j, ¬ (1 ≤ i ∧ i ≤ rpp - 2 ∧ j < WIDTH) →
      (kernel_pass rpp b).new_grid i j = b.new_grid i j := by
    intro i j h
    have h' : ¬ ((1 ≤ i ∧ i < 1 + (rpp - 2)) ∧ j < WIDTH) := by omega
    rw [(kernel_pass_eq rpp b).2, kernel_apply, if_neg h']
  refine ⟨(kernel_pass_eq rpp b).1, hin b, hout, ?_, ?_, ?_⟩
  · intro j
    exact hout 0 j (by omega)
  · intro j h2
    exact hout (rpp - 1) j (by omega)
  · intro b' hb i j h1 h2 h3
    rw [hin b' i j h1 h2 h3, hin b i j h1 h2 h3, hb]

/-- C14, witness: a pass over the current buffer `three_in_a_row` with 4 rows; the ghost
row `3` of the next buffer keeps its value `7`, the owned cell `(2, 1)` becomes `1`, and
the result does not depend on what the next buffer held. -/
theorem kernel_frame_witness :
    (kernel_pass 4 { grid := three_in_a_row, new_grid := fun _ _ => 7 }).grid
      = three_in_a_row ∧
    (kernel_pass 4 { grid := three_in_a_row, new_grid := fun _ _ => 7 }).new_grid (4 - 1) 5
      = 7 ∧
    (kernel_pass 4 { grid := three_in_a_row, new_grid := zero_grid }).new_grid 2 1
      = (kernel_pass 4 { grid := three_in_a_row, new_grid := fun _ _ => 7 }).new_grid 2 1 :=
  ⟨(kernel_frame 4 { grid := three_in_a_row, new_grid := fun _ _ => 7 }).1,
    (kernel_frame 4 { grid := three_in_a_row, new_grid := fun _ _ => 7 }).2.2.2.2.1 5
      (by decide),
    (kernel_frame 4 { grid := three_in_a_row, new_grid := fun _ _ => 7 }).2.2.2.2.2
      { grid := three_in_a_row, new_grid := zero_grid } rfl 2 1 (by decide) (by decide)
      (by decide)⟩

/-! ## The distributed step refines the sequential step (C15) -/

/-- The owned cells a generation computes do not depend on the next buffers. -/
theorem assemble_generation_congr (size : Nat) (w w' : World)
    (hL : 0 < owned_count size) (hg : ∀ r, (w' r).grid = (w r).grid) :
    agree (assemble size (generation size w')) (assemble size (generation size w)) := by
  intro g j _ hj
  have hk : g % owned_count size < owned_count size := Nat.mod_lt _ hL
  have hk2 : g % owned_count size + 1 < 1 + owned_count size := by
    rw [Nat.add_comm 1]
    exact Nat.succ_lt_succ hk
  have hc : (1 ≤ g % owned_count size + 1 ∧
      g % owned_count size + 1 < 1 + (rows_per_process size - 2)) ∧ j < WIDTH :=
    ⟨⟨Nat.succ_le_succ (Nat.zero_le _), hk2⟩, hj⟩
  have hgrids : (fun r => (w' r).grid) = (fun r => (w r).grid) := funext hg
  unfold assemble
  rw [generation_grid_apply, generation_grid_apply, if_pos hc, if_pos hc, hgrids]

/-- C15: for every worker count `size ≥ 2` that divides `HEIGHT` and all contents of the
workers' owned rows (binary or not), with the two ghost rows at the edges of the global
grid zero in the current buffers, one generation (halo exchange on all workers, then the
kernel on all workers) produces owned rows whose concatenation in rank order is one step
of the sequential rule on the concatenation of the old owned rows, taken as a
`HEIGHT × WIDTH` grid with every cell outside the grid dead. -/
theorem distributed_step_refines_sequential (size : Nat) (w : World) (h2 : 2 ≤ size)
    (hdvd : size ∣ HEIGHT)
    (htop : ∀ j, j < WIDTH → (w 0).grid 0 j = 0)
    (hbottom : ∀ j, j < WIDTH → (w (size - 1)).grid (rows_per_process size - 1) j = 0) :
    agree (assemble size (generation size w)) (ref_step (assemble size w)) := by
  have hH : size * owned_count size = HEIGHT := by
    rw [owned_count_eq]
    exact Nat.mul_div_cancel' hdvd
  have hL : 0 < owned_count size :=
    owned_count_pos size (by omega) (Nat.le_of_dvd (by decide) hdvd)
  have hz : edge_ghost_zero size (fun r => { grid := (w r).grid, new_grid := zero_grid }) :=
    fun j hj => ⟨htop j hj, rfl, hbottom j hj, rfl⟩
  have h := assemble_generation size _ h2 hH hz
  have hc := assemble_generation_congr size
    (fun r => { grid := (w r).grid, new_grid := zero_grid }) w hL (fun _ => rfl)
  intro g j hg hj
  rw [hc g j hg hj]
  exact h g j hg hj

/-- C15, witness with two workers and a 2 × 2 block that straddles their slabs (global
rows `1499`, `1500`). -/
theorem distributed_step_refines_sequential_witness :
    (2 ≤ 2 ∧ 2 ∣ HEIGHT) ∧
    agree (assemble 2 (generation 2 (distribute 2 (block 1499 7))))
      (ref_step (assemble 2 (distribute 2 (block 1499 7)))) :=
  ⟨by decide,
    distributed_step_refines_sequential 2 (distribute 2 (block 1499 7)) (by decide)
      (by decide) (fun j hj => ((edge_ghost_zero_distribute 2 (block 1499 7)) j hj).1)
      (fun j hj => ((edge_ghost_zero_distribute 2 (block 1499 7)) j hj).2.2.1)⟩

/-! ## Exactly one placing worker (C16) -/

/-- The rank that passes the test of line 62 is the rank of a worker. -/
theorem placing_rank_lt (size : Nat) (h1 : 1 ≤ size) (h2 : size ≤ HEIGHT) :
    placing_rank (rows_per_process size) < size := by
  have hL := owned_count_pos size h1 h2
  have hLe := owned_count_eq size
  have hdm : size * (HEIGHT / size) + HEIGHT % size = HEIGHT := Nat.div_add_mod HEIGHT size
  have hmod : HEIGHT % size < size := Nat.mod_lt _ h1
  have hH : HEIGHT = 3000 := rfl
  have hhalf : HEIGHT / 2 = 1500 := by decide
  show HEIGHT / 2 / owned_count size < size
  apply (Nat.div_lt_iff_lt_mul hL).2
  rw [hhalf, hLe]
  rcases Nat.lt_or_ge size 1501 with hs | hs
  · omega
  · have hq : 1 ≤ HEIGHT / size := by
      rw [← hLe]
      exact hL
    have : size * 1 ≤ size * (HEIGHT / size) := Nat.mul_le_mul_left size hq
    omega

/-- C16: for every worker count `1 ≤ size ≤ HEIGHT` the divisor `rows_per_process - 2`
of lines 62-63 equals `HEIGHT / size` and is at least 1, so that no worker divides by
zero before the main loop, and exactly one rank `r < size` passes the test
`r == HEIGHT / 2 / (rows_per_process - 2)`: the pattern is written by exactly one
worker, every other worker leaves its buffer as allocated. -/
theorem exactly_one_placing_worker (size : Nat) (h1 : 1 ≤ size) (h2 : size ≤ HEIGHT) :
    rows_per_process size - 2 = HEIGHT / size ∧ 1 ≤ rows_per_process size - 2 ∧
    (∀ rank p, ∃ b, (startup size rank p).2 = Except.ok b) ∧
    (∃! r, r < size ∧ r = HEIGHT / 2 / (rows_per_process size - 2)) ∧
    (∀ rank p grid, rank ≠ HEIGHT / 2 / (rows_per_process size - 2) →
      init_pattern (rows_per_process size) rank p grid = grid) ∧
    (∀ p grid, init_pattern (rows_per_process size)
        (HEIGHT / 2 / (rows_per_process size - 2)) p grid
      = place_pattern p (start_row (rows_per_process size)) grid) := by
  have hL := owned_count_pos size h1 h2
  have hLe := owned_count_eq size
  unfold owned_count at hL hLe
  have hs : size ≠ 0 := by omega
  have hr : ¬ (rows_per_process size - 2 = 0) := by omega
  refine ⟨hLe, hL, ?_, ?_, ?_, ?_⟩
  · intro rank p
    simp only [startup, if_neg hs, if_neg hr]
    exact ⟨_, rfl⟩
  · refine ⟨HEIGHT / 2 / (rows_per_process size - 2), ⟨placing_rank_lt size h1 h2, rfl⟩, ?_⟩
    intro r hr'
    exact hr'.2
  · intro rank p grid hne
    unfold init_pattern placing_rank
    rw [if_neg hne]
  · intro p grid
    unfold init_pattern placing_rank
    rw [if_pos rfl]

/-- C16, witness with 7 workers: the divisor is 428 and rank 3 places the pattern. -/
theorem exactly_one_placing_worker_witness :
    (1 ≤ 7 ∧ 7 ≤ HEIGHT) ∧ rows_per_process 7 - 2 = 428 ∧
    HEIGHT / 2 / (rows_per_process 7 - 2) = 3 ∧
    (∃! r, r < 7 ∧ r = HEIGHT / 2 / (rows_per_process 7 - 2)) :=
  ⟨by decide, by decide, by decide,
    (exactly_one_placing_worker 7 (by decide) (by decide)).2.2.2.1⟩

/-! ## Cells stay binary (C17) -/

theorem binary_setCell (g : Grid) (i j : Nat) (v : Int) (hg : binary_grid g)
    (hv : v = 0 ∨ v = 1) : binary_grid (setCell g i j v) := by
  intro a b
  rw [setCell_apply]
  by_cases h : a = i ∧ b = j
  · rw [if_pos h]
    exact hv
  · rw [if_neg h]
    exact hg a b

theorem binary_setRow (g : Grid) (i : Nat) (row : Nat → Int) (hg : binary_grid g)
    (hrow : ∀ b, row b = 0 ∨ row b = 1) : binary_grid (setRow g i row) := by
  intro a b
  rw [setRow_apply]
  by_cases h : a = i ∧ b < WIDTH
  · rw [if_pos h]
    exact hrow b
  · rw [if_neg h]
    exact hg a b

theorem binary_foldl (α : Type) (f : Grid → α → Grid)
    (hf : ∀ g x, binary_grid g → binary_grid (f g x)) (l : List α) (g : Grid)
    (hg : binary_grid g) : binary_grid (l.foldl f g) := by
  induction l generalizing g with
  | nil => exact hg
  | cons x xs ih =>
    rw [List.foldl_cons]
    exact ih (f g x) (hf g x hg)

theorem binary_place_pattern (p : Pattern)
    (hp : ∀ i j, p.glider i j = 0 ∨ p.glider i j = 1) (s : Nat) (g : Grid)
    (hg : binary_grid g) : binary_grid (place_pattern p s g) := by
  unfold place_pattern
  apply binary_foldl _ _ _ _ _ hg
  intro g1 i hg1
  apply binary_foldl _ _ _ _ _ hg1
  intro g2 j hg2
  exact binary_setCell g2 _ _ _ hg2 (hp i j)

theorem binary_zero_grid : binary_grid zero_grid := fun _ _ => Or.inl rfl

theorem binary_initial_world (size : Nat) (p : Pattern)
    (hp : ∀ i j, p.glider i j = 0 ∨ p.glider i j = 1) : binary_world (initial_world size p) := by
  intro rank
  refine ⟨?_, binary_zero_grid⟩
  show binary_grid (init_pattern (rows_per_process size) rank p zero_grid)
  unfold init_pattern
  by_cases h : rank = placing_rank (rows_per_process size)
  · rw [if_pos h]
    exact binary_place_pattern p hp _ _ binary_zero_grid
  · rw [if_neg h]
    exact binary_zero_grid

theorem binary_after_upstream (rpp : Nat) (grids : Nat → Grid)
    (hg : ∀ r, binary_grid (grids r)) (rank : Nat) :
    binary_grid (after_upstream rpp grids rank) := by
  induction rank with
  | zero => exact hg 0
  | succ r ih =>
    show binary_grid (setRow (grids (r + 1)) 0 (after_upstream rpp grids r (rpp - 2)))
    exact binary_setRow _ _ _ (hg (r + 1)) (fun b => ih (rpp - 2) b)

theorem binary_exchange (size : Nat) (grids : Nat → Grid)
    (hg : ∀ r, binary_grid (grids r)) (rank : Nat) :
    binary_grid (exchange size grids rank) := by
  unfold exchange after_downstream
  by_cases h : rank + 1 < size
  · rw [if_pos h]
    exact binary_setRow _ _ _ (binary_after_upstream _ grids hg rank)
      (fun b => hg (rank + 1) 1 b)
  · rw [if_neg h]
    exact binary_after_upstream _ grids hg rank

theorem next_state_binary (c n : Int) (hc : c = 0 ∨ c = 1) :
    next_state c n = 0 ∨ next_state c n = 1 := by
  unfold next_state
  split_ifs
  · exact Or.inl rfl
  · exact Or.inr rfl
  · exact hc

theorem binary_kernel (rpp : Nat) (grid new_grid : Grid) (hg : binary_grid grid)
    (hn : binary_grid new_grid) : binary_grid (kernel rpp grid new_grid) := by
  intro a b
  rw [kernel_apply]
  by_cases h : (1 ≤ a ∧ a < 1 + (rpp - 2)) ∧ b < WIDTH
  · rw [if_pos h]
    exact next_state_binary _ _ (hg a b)
  · rw [if_neg h]
    exact hn a b

theorem binary_generation (size : Nat) (w : World) (hw : binary_world w) :
    binary_world (generation size w) := by
  intro rank
  have hx := binary_exchange size (fun r => (w r).grid) (fun r => (hw r).1) rank
  exact ⟨binary_kernel _ _ _ hx (hw rank).2, hx⟩

theorem binary_world_after (size : Nat) (p : Pattern)
    (hp : ∀ i j, p.glider i j = 0 ∨ p.glider i j = 1) (N : Nat) :
    binary_world (world_after size p N) := by
  unfold world_after
  induction N with
  | zero => exact binary_initial_world size p hp
  | succ N ih =>
    rw [Function.iterate_succ_apply']
    exact binary_generation size _ ih

theorem clipped_binary (g : Grid) (hg : binary_grid g) (nx ny : Int) :
    clipped g nx ny = 0 ∨ clipped g nx ny = 1 := by
  unfold clipped
  split_ifs
  · exact hg _ _
  · exact Or.inl rfl

/-- On a binary buffer every neighbour count lies in `0 .. 8`. -/
theorem count_live_neighbors_bounds (g : Grid) (hg : binary_grid g) (x y : Int) :
    0 ≤ count_live_neighbors x y g ∧ count_live_neighbors x y g ≤ 8 := by
  rw [count_live_neighbors_eq]
  have h1 := clipped_binary g hg (x - 1) (y - 1)
  have h2 := clipped_binary g hg (x - 1) y
  have h3 := clipped_binary g hg (x - 1) (y + 1)
  have h4 := clipped_binary g hg x (y - 1)
  have h5 := clipped_binary g hg x (y + 1)
  have h6 := clipped_binary g hg (x + 1) (y - 1)
  have h7 := clipped_binary g hg (x + 1) y
  have h8 := clipped_binary g hg (x + 1) (y + 1)
  omega

/-- On a binary buffer the alive count is the number of cells different from `0`. -/
theorem local_alive_count_eq_nonzero (rpp : Nat) (g : Grid) (hg : binary_grid g) :
    local_alive_count rpp g = nonzero_in_owned_rows rpp g := by
  rw [local_alive_count_eq_live]
  unfold live_in_owned_rows nonzero_in_owned_rows
  congr 1
  apply Finset.filter_congr
  intro p _
  rcases hg p.1 p.2 with h | h
  · rw [h]
    decide
  · rw [h]
    decide

theorem foldl_invariant (α : Type) (P : Grid → Prop) (f : Grid → α → Grid) (l : List α)
    (hf : ∀ g x, x ∈ l → P g → P (f g x)) (g : Grid) (hg : P g) : P (l.foldl f g) := by
  induction l generalizing g with
  | nil => exact hg
  | cons x xs ih =>
    rw [List.foldl_cons]
    exact ih (fun g' y hy hP => hf g' y (List.mem_cons_of_mem x hy) hP) (f g x)
      (hf g x (List.mem_cons_self x xs) hg)

theorem zero_outside_setCell (rpp : Nat) (g : Grid) (i j : Nat) (v : Int)
    (hg : zero_outside rpp g) (hi : i < rpp) (hj : j < WIDTH) :
    zero_outside rpp (setCell g i j v) := by
  intro a b hab
  rw [setCell_apply]
  have h : ¬ (a = i ∧ b = j) := by
    rintro ⟨rfl, rfl⟩
    exact hab ⟨hi, hj⟩
  rw [if_neg h]
  exact hg a b hab

theorem zero_outside_setRow (rpp : Nat) (g : Grid) (i : Nat) (row : Nat → Int)
    (hg : zero_outside rpp g) (hi : i < rpp) : zero_outside rpp (setRow g i row) := by
  intro a b hab
  rw [setRow_apply]
  have h : ¬ (a = i ∧ b < WIDTH) := by
    rintro ⟨rfl, hb⟩
    exact hab ⟨hi, hb⟩
  rw [if_neg h]
  exact hg a b hab

theorem zero_outside_zero_grid (rpp : Nat) : zero_outside rpp zero_grid := fun _ _ _ => rfl

/-- A placement whose writes lie inside the buffer changes no cell outside the buffer. -/
theorem zero_outside_place_pattern (size : Nat) (p : Pattern)
    (hfit : placement_in_bounds size p) (g : Grid)
    (hg : zero_outside (rows_per_process size) g) :
    zero_outside (rows_per_process size)
      (place_pattern p (start_row (rows_per_process size)) g) := by
  unfold place_pattern
  apply foldl_invariant _ (zero_outside (rows_per_process size)) _ _ _ _ hg
  intro g1 i hi hg1
  apply foldl_invariant _ (zero_outside (rows_per_process size)) _ _ _ _ hg1
  intro g2 j hj hg2
  have h := hfit i (List.mem_range.1 hi) j (List.mem_range.1 hj)
  exact zero_outside_setCell _ g2 _ _ _ hg2 h.1 h.2.2

theorem zero_outside_after_upstream (rpp : Nat) (hrpp : 2 ≤ rpp) (grids : Nat → Grid)
    (hg : ∀ r, zero_outside rpp (grids r)) (rank : Nat) :
    zero_outside rpp (after_upstream rpp grids rank) := by
  cases rank with
  | zero => exact hg 0
  | succ r =>
    show zero_outside rpp (setRow (grids (r + 1)) 0 (after_upstream rpp grids r (rpp - 2)))
    exact zero_outside_setRow rpp _ 0 _ (hg (r + 1)) (by omega)

theorem two_le_rows_per_process (size : Nat) : 2 ≤ rows_per_process size := by
  unfold rows_per_process
  exact Nat.le_add_left 2 _

theorem zero_outside_exchange (size : Nat) (grids : Nat → Grid)
    (hg : ∀ r, zero_outside (rows_per_process size) (grids r)) (rank : Nat) :
    zero_outside (rows_per_process size) (exchange size grids rank) := by
  have h2 := two_le_rows_per_process size
  unfold exchange after_downstream
  by_cases h : rank + 1 < size
  · rw [if_pos h]
    exact zero_outside_setRow _ _ _ _ (zero_outside_after_upstream _ h2 grids hg rank)
      (by omega)
  · rw [if_neg h]
    exact zero_outside_after_upstream _ h2 grids hg rank

theorem zero_outside_kernel (rpp : Nat) (grid new_grid : Grid)
    (hn : zero_outside rpp new_grid) : zero_outside rpp (kernel rpp grid new_grid) := by
  intro a b hab
  rw [kernel_apply]
  have h : ¬ ((1 ≤ a ∧ a < 1 + (rpp - 2)) ∧ b < WIDTH) := by
    intro hc
    apply hab
    omega
  rw [if_neg h]
  exact hn a b hab

theorem zero_outside_world_after (size : Nat) (p : Pattern)
    (hfit : placement_in_bounds size p) (N : Nat) (rank : Nat) :
    zero_outside (rows_per_process size) (world_after size p N rank).grid ∧
    zero_outside (rows_per_process size) (world_after size p N rank).new_grid := by
  unfold world_after
  induction N generalizing rank with
  | zero =>
    refine ⟨?_, zero_outside_zero_grid _⟩
    show zero_outside _ (init_pattern (rows_per_process size) rank p zero_grid)
    unfold init_pattern
    by_cases h : rank = placing_rank (rows_per_process size)
    · rw [if_pos h]
      exact zero_outside_place_pattern size p hfit _ (zero_outside_zero_grid _)
    · rw [if_neg h]
      exact zero_outside_zero_grid _
  | succ N ih =>
    rw [Function.iterate_succ_apply']
    have hx := zero_outside_exchange size
      (fun r => (Nat.iterate (generation size) N (initial_world size p) r).grid)
      (fun r => (ih r).1) rank
    exact ⟨zero_outside_kernel _ _ _ (ih rank).2, hx⟩

/-- A pattern of at most 3 rows and at most `WIDTH` columns is written inside the buffer of
the placing worker for every worker count `1 ≤ size ≤ HEIGHT`. -/
theorem placement_in_bounds_of_small (size : Nat) (p : Pattern) (h1 : 1 ≤ size)
    (h2 : size ≤ HEIGHT) (hh : p.GLIDER_HEIGHT ≤ 3) (hw : p.GLIDER_WIDTH ≤ WIDTH) :
    placement_in_bounds size p := by
  have hL := owned_count_pos size h1 h2
  have hrpp := rows_per_process_eq size
  have hs : start_row (rows_per_process size) < owned_count size := Nat.mod_lt _ hL
  intro i hi j hj
  have hW : WIDTH = 3000 := rfl
  refine ⟨by omega, by omega, by omega⟩

/-- C17: let `1 ≤ size ≤ HEIGHT`, let every entry of the placed pattern be `0` or `1`,
and let every write of the placement lie inside the buffer of the placing worker
(`placement_in_bounds`; it holds for every such `size` when the pattern has at most 3
rows, and without it line 66 writes outside the buffer, which is undefined behaviour).
Then no worker faults before the main loop, no cell outside the buffers of
`rows_per_process` rows and `WIDTH` columns is ever written, and after any number `N` of
generations every cell of both buffers of every worker (owned and ghost rows) is `0` or
`1`, also in the exchanged current buffers the next kernel pass reads; every neighbour
count the kernel computes lies in `0 .. 8`, and the alive count of a worker (cells equal
to `1` in its owned rows) is the number of its owned cells that are not `0`. -/
theorem cells_stay_binary (size : Nat) (p : Pattern) (N : Nat) (h1 : 1 ≤ size)
    (h2 : size ≤ HEIGHT) (hp : ∀ i j, p.glider i j = 0 ∨ p.glider i j = 1)
    (hfit : placement_in_bounds size p) :
    (∀ rank, (startup size rank p).2 = Except.ok (initial_world size p rank)) ∧
    (∀ rank, zero_outside (rows_per_process size) (world_after size p N rank).grid ∧
      zero_outside (rows_per_process size) (world_after size p N rank).new_grid) ∧
    binary_world (world_after size p N) ∧
    (∀ rank, binary_grid (exchange size (fun r => (world_after size p N r).grid) rank)) ∧
    (∀ rank (i j : Nat),
      0 ≤ count_live_neighbors i j (exchange size (fun r => (world_after size p N r).grid) rank)
      ∧ count_live_neighbors i j (exchange size (fun r => (world_after size p N r).grid) rank)
        ≤ 8) ∧
    (∀ rank, local_alive_count (rows_per_process size) (world_after size p N rank).grid
      = nonzero_in_owned_rows (rows_per_process size) (world_after size p N rank).grid) := by
  have hL := owned_count_pos size h1 h2
  unfold owned_count at hL
  have hs : size ≠ 0 := by omega
  have hr : ¬ (rows_per_process size - 2 = 0) := by omega
  have hw := binary_world_after size p hp N
  have hx : ∀ rank, binary_grid (exchange size (fun r => (world_after size p N r).grid) rank) :=
    fun rank => binary_exchange size _ (fun r => (hw r).1) rank
  refine ⟨?_, zero_outside_world_after size p hfit N, hw, hx, ?_, ?_⟩
  · intro rank
    simp only [startup, if_neg hs, if_neg hr]
    rfl
  · intro rank i j
    exact count_live_neighbors_bounds _ (hx rank) i j
  · intro rank
    exact local_alive_count_eq_nonzero _ _ (hw rank).1

/-- C17, witness with the standard glider, 1501 workers (buffers of 3 rows, which the 3
pattern rows fill exactly) and 5000 generations. -/
theorem cells_stay_binary_witness :
    (1 ≤ 1501 ∧ 1501 ≤ HEIGHT) ∧
    (∀ i j, standard_glider.glider i j = 0 ∨ standard_glider.glider i j = 1) ∧
    placement_in_bounds 1501 standard_glider ∧
    binary_world (world_after 1501 standard_glider 5000) ∧
    (∀ rank, zero_outside (rows_per_process 1501) (world_after 1501 standard_glider 5000 rank).grid
      ∧ zero_outside (rows_per_process 1501)
          (world_after 1501 standard_glider 5000 rank).new_grid) ∧
    (∀ rank, local_alive_count (rows_per_process 1501)
        (world_after 1501 standard_glider 5000 rank).grid
      = nonzero_in_owned_rows (rows_per_process 1501)
          (world_after 1501 standard_glider 5000 rank).grid) :=
  have hp : ∀ i j, standard_glider.glider i j = 0 ∨ standard_glider.glider i j = 1 := by
    intro i j
    unfold standard_glider
    simp only
    split <;> simp
  have hfit : placement_in_bounds 1501 standard_glider := by decide
  ⟨by decide, hp, hfit,
    (cells_stay_binary 1501 standard_glider 5000 (by decide) (by decide) hp hfit).2.2.1,
    (cells_stay_binary 1501 standard_glider 5000 (by decide) (by decide) hp hfit).2.1,
    (cells_stay_binary 1501 standard_glider 5000 (by decide) (by decide) hp hfit).2.2.2.2.2⟩

end GameOfLife
